import Mathlib

/-!
JpgToWebp: batch image conversion (`main.go`)

A shallow embedding of `convertFolderToWebP` and `convertToWebP`.

* Go strings are lists of runes (`GoString`); paths use the Unix separator `/`.
* The standard-library helpers the program calls (`filepath.Ext`, `strings.ToLower`,
  `strings.TrimSuffix`, `filepath.Clean`, `filepath.Join`, `filepath.Rel`,
  `filepath.Walk`) are transcribed from their Go definitions.
* The operating system (directory creation, `lstat`, file contents, codecs) is an
  explicit environment of result oracles.
* The goroutines of `convertFolderToWebP` are a labelled step function on an explicit
  state; an execution is a list of scheduling choices.
-/

namespace JpgToWebp

set_option linter.unnecessarySeqFocus false

/-! ## Strings and paths -/

/-- A Go string, as its sequence of runes. -/
abbrev GoString := List Char

/-- The path separator (`os.PathSeparator` on Unix). -/
def Separator : Char := '/'

/-- Go `unicode.ToLower`: ASCII letters are shifted directly, every other rune goes
through the Unicode case tables, which are the parameter `tbl`. -/
def unicodeToLower (tbl : Char → Char) (r : Char) : Char :=
  if r.toNat ≤ 0x7F then
    if 'A'.toNat ≤ r.toNat ∧ r.toNat ≤ 'Z'.toNat then Char.ofNat (r.toNat + 32) else r
  else tbl r

/-- Go `strings.ToLower`: every rune mapped through `unicode.ToLower`. -/
def ToLower (tbl : Char → Char) (s : GoString) : GoString :=
  s.map (unicodeToLower tbl)

/-- Backward scan of `filepath.Ext` on the reversed path: `acc` is the suffix already
passed over. -/
def extScan : List Char → List Char → GoString
  | [], _ => []
  | c :: rest, acc =>
    if c = Separator then []
    else if c = '.' then c :: acc
    else extScan rest (c :: acc)

/-- Go `filepath.Ext`: the suffix beginning at the final dot in the final element of
the path, empty when there is no dot. -/
def Ext (path : GoString) : GoString :=
  extScan path.reverse []

/-- Go `strings.TrimSuffix`. -/
def TrimSuffix (s suffix : GoString) : GoString :=
  if suffix.isSuffixOf s then s.take (s.length - suffix.length) else s

/-- The `..` case of `filepath.Clean`, on the reversed output buffer: `popped` is the
byte at the write index after the last decrement. -/
def backtrack (dotdot : Nat) : Char → List Char → List Char
  | _, [] => []
  | popped, c :: r =>
    if (c :: r).length > dotdot ∧ popped ≠ Separator then backtrack dotdot c r else c :: r

/-- Main loop of `filepath.Clean`. `rest` is the unread input, `out` the reversed
output buffer, `dotdot` the index where `..` must stop. Each round consumes input, so
fuel equal to the input length is enough. -/
def cleanLoop (rooted : Bool) : Nat → List Char → List Char → Nat → List Char
  | 0, _, out, _ => out
  | fuel + 1, rest, out, dotdot =>
    match rest with
    | [] => out
    | c :: t =>
      if c = Separator then
        cleanLoop rooted fuel t out dotdot
      else if c = '.' ∧ (t = [] ∨ t.head? = some Separator) then
        cleanLoop rooted fuel t out dotdot
      else if c = '.' ∧ t.head? = some '.' ∧
          (t.tail = [] ∨ t.tail.head? = some Separator) then
        if out.length > dotdot then
          match out with
          | [] => cleanLoop rooted fuel t.tail out dotdot
          | p :: o => cleanLoop rooted fuel t.tail (backtrack dotdot p o) dotdot
        else if !rooted then
          let out1 := if out.length > 0 then Separator :: out else out
          let out2 := '.' :: '.' :: out1
          cleanLoop rooted fuel t.tail out2 out2.length
        else
          cleanLoop rooted fuel t.tail out dotdot
      else
        let out1 :=
          if (rooted ∧ out.length ≠ 1) ∨ (!rooted ∧ out.length ≠ 0) then Separator :: out
          else out
        let elem := (c :: t).takeWhile (fun x => x ≠ Separator)
        cleanLoop rooted fuel ((c :: t).dropWhile (fun x => x ≠ Separator))
          (elem.reverse ++ out1) dotdot

/-- Go `filepath.Clean` (Unix: no volume name). -/
def Clean (path : GoString) : GoString :=
  if path = [] then ['.']
  else
    let rooted := path.head? = some Separator
    let out :=
      if rooted then cleanLoop true path.length path.tail [Separator] 1
      else cleanLoop false path.length path [] 0
    if out = [] then ['.'] else out.reverse

/-- Go `filepath.Join` for two elements: leading empty elements are skipped, the rest
are joined by the separator and cleaned; all empty gives the empty string. -/
def Join (a b : GoString) : GoString :=
  if a ≠ [] then Clean (a ++ Separator :: b)
  else if b ≠ [] then Clean b
  else []

/-- Errors the program can return. `os n` is an error reported by the operating
system or a codec, `nilDereference` stands for the run-time panic of a nil `FileInfo`,
and the other constructors are the errors built in `main.go` and in `path/filepath`. -/
inductive GoError
  | os (code : Nat)
  | SkipDir
  | SkipAll
  | relFailed (targpath basepath : GoString)
  | outputDirFailed (cause : GoError)
  | noSupportedImages
  | subDirFailed (cause : GoError)
  | openFailed (inputPath : GoString) (cause : GoError)
  | unsupportedFormat (ext : GoString)
  | decodeFailed (inputPath : GoString) (cause : GoError)
  | createFailed (outputPath : GoString) (cause : GoError)
  | nilDereference
  deriving DecidableEq, Repr

deriving instance DecidableEq for Except

/-- The slice `s[a:b]`. -/
def slice (s : GoString) (a b : Nat) : GoString :=
  (s.drop a).take (b - a)

/-- Inner loops of `filepath.Rel`: advance `i` to the next separator of `s`, or to the
length of `s` when there is none. -/
def scanSep (s : GoString) (i : Nat) : Nat :=
  i + ((s.drop i).takeWhile (fun x => x ≠ Separator)).length

/-- Outer loop of `filepath.Rel`: position `base[b0:bi]` and `targ[t0:ti]` at the
first differing elements. Each round that continues advances `bi`, so fuel
`len(base) + 1` is enough. -/
def relLoop (base targ : GoString) : Nat → Nat → Nat → Nat → Nat → Nat × Nat × Nat × Nat
  | 0, b0, bi, t0, ti => (b0, bi, t0, ti)
  | fuel + 1, b0, bi, t0, ti =>
    if bi < base.length ∧ ti < targ.length then
      let bi1 := scanSep base bi
      let ti1 := scanSep targ ti
      if slice targ t0 ti1 ≠ slice base b0 bi1 then (b0, bi1, t0, ti1)
      else
        let bi2 := if bi1 < base.length then bi1 + 1 else bi1
        let ti2 := if ti1 < targ.length then ti1 + 1 else ti1
        relLoop base targ fuel bi2 bi2 ti2 ti2
    else (b0, bi, t0, ti)

/-- The `../..` prefix built by `filepath.Rel` for `seps` further base elements. -/
def upDirs : Nat → GoString
  | 0 => ['.', '.']
  | n + 1 => upDirs n ++ [Separator, '.', '.']

/-- Go `filepath.Rel` (Unix: no volume name, `sameWord` is equality). It fails when
one path is rooted and the other is not, and when the first element of the base that
the target does not share is `..`: that element runs from `b0` to the next
separator. -/
def Rel (basepath targpath : GoString) : Except GoError GoString :=
  let base0 := Clean basepath
  let targ := Clean targpath
  if targ = base0 then .ok ['.']
  else
    let base := if base0 = ['.'] then [] else base0
    let baseSlashed := decide (base.head? = some Separator)
    let targSlashed := decide (targ.head? = some Separator)
    if baseSlashed ≠ targSlashed then .error (.relFailed targpath basepath)
    else
      match relLoop base targ (base.length + 1) 0 0 0 0 with
      | (b0, _, t0, _) =>
        if slice base b0 (scanSep base b0) = ['.', '.'] then
          .error (.relFailed targpath basepath)
        else if b0 ≠ base.length then
          let seps := (slice base b0 base.length).count Separator
          if t0 ≠ targ.length then .ok (upDirs seps ++ Separator :: targ.drop t0)
          else .ok (upDirs seps)
        else .ok (targ.drop t0)

/-! ## The file system seen by `filepath.Walk` -/

/-- What `os.Lstat` reports; only `IsDir` is used. -/
structure FileInfo where
  isDir : Bool
  deriving DecidableEq, Repr

/-- A file-system object as `filepath.Walk` meets it. `file` is any entry for which
`lstat` succeeds with `IsDir() = false` (regular file, symbolic link, device ...);
`dir` is a directory whose names can be read (in lexical order); `unreadableDir` is a
directory whose names cannot be read; `noStat` is a name for which `lstat` fails;
`errno` is the code of the operating-system error. -/
inductive FsNode
  | file (name : GoString)
  | dir (name : GoString) (entries : List FsNode)
  | unreadableDir (name : GoString) (errno : Nat)
  | noStat (name : GoString) (errno : Nat)
  deriving Repr

/-- The name of a directory entry. -/
def FsNode.name : FsNode → GoString
  | .file n => n
  | .dir n _ => n
  | .unreadableDir n _ => n
  | .noStat n _ => n

/-- Result of `lstat(...).IsDir()` for an entry; false where `lstat` fails. -/
def FsNode.isDir : FsNode → Bool
  | .file _ => false
  | .dir _ _ => true
  | .unreadableDir _ _ => true
  | .noStat _ _ => false

/-- A `filepath.WalkFunc` closure: the captured variables are threaded as a state. -/
abbrev WalkFunc (σ : Type) := σ → GoString → Option FileInfo → Option GoError → σ × Option GoError

mutual
/-- Go `filepath.walk` on the object at `path`; for a `noStat` object it is the
callback invocation that the caller of `walk` makes in place of `walk` when `lstat`
fails. -/
def walk {σ : Type} (fn : WalkFunc σ) (path : GoString) : FsNode → σ → σ × Option GoError
  | .file _, s => fn s path (some ⟨false⟩) none
  | .noStat _ e, s => fn s path none (some (.os e))
  | .unreadableDir _ e, s => fn s path (some ⟨true⟩) (some (.os e))
  | .dir _ entries, s =>
    match fn s path (some ⟨true⟩) none with
    | (s1, some err1) => (s1, some err1)
    | (s1, none) => walkNames fn path entries s1
/-- The loop over the names of a directory in `filepath.walk`. -/
def walkNames {σ : Type} (fn : WalkFunc σ) (path : GoString) :
    List FsNode → σ → σ × Option GoError
  | [], s => (s, none)
  | n :: rest, s =>
    match n with
    | .noStat _ _ =>
      match walk fn (Join path n.name) n s with
      | (s1, some err) =>
        if err ≠ .SkipDir then (s1, some err) else walkNames fn path rest s1
      | (s1, none) => walkNames fn path rest s1
    | _ =>
      match walk fn (Join path n.name) n s with
      | (s1, some err) =>
        if !n.isDir ∨ err ≠ .SkipDir then (s1, some err) else walkNames fn path rest s1
      | (s1, none) => walkNames fn path rest s1
end

/-- Go `filepath.Walk`: `SkipDir` and `SkipAll` from the top are turned into success. -/
def Walk {σ : Type} (fn : WalkFunc σ) (root : GoString) (node : FsNode) (s : σ) :
    σ × Option GoError :=
  match walk fn root node s with
  | (s1, some err) => if err = .SkipDir ∨ err = .SkipAll then (s1, none) else (s1, some err)
  | (s1, none) => (s1, none)

/-! ## `convertFolderToWebP`: discovery (lines 139-155) -/

/-- The extension test of line 148 (also the non-default cases of the switch of line
231), on an already lower-cased extension. -/
def supportedExt (ext : GoString) : Bool :=
  ext = ".jpg".toList ∨ ext = ".jpeg".toList ∨ ext = ".png".toList ∨ ext = ".gif".toList

/-- The closure of lines 140-152; the captured slice `files` is the state. -/
def walkFn (tbl : Char → Char) : WalkFunc (List GoString) :=
  fun files path info err =>
    match err with
    | some e => (files, some e)
    | none =>
      match info with
      | none => (files, some .nilDereference)
      | some i =>
        if i.isDir then (files, none)
        else
          let ext := ToLower tbl (Ext path)
          if supportedExt ext then (files ++ [path], none) else (files, none)

/-- A walk callback with the error handling of lines 141-143 that only records every
visit: the path, and the `FileInfo` it was called with. -/
def recordFn : WalkFunc (List (GoString × FileInfo)) :=
  fun log path info err =>
    match err with
    | some e => (log, some e)
    | none =>
      match info with
      | none => (log, some .nilDereference)
      | some i => (log ++ [(path, i)], none)

/-- The sample tree of the scenario: `a.png`, `b.jpg`, `readme.txt`, `sub/c.gif`, plus
a directory that is named like an image and a file with an upper-case extension. -/
def sampleTree : FsNode :=
  .dir "in".toList
    [.file "a.png".toList, .file "b.jpg".toList, .dir "dir.jpg".toList [],
     .file "readme.txt".toList,
     .dir "sub".toList [.file "C.GIF".toList, .file "c.gif".toList]]

/-- The predicate "a non-directory whose lower-cased extension is supported" on a
recorded visit. -/
def eligible (tbl : Char → Char) (v : GoString × FileInfo) : Bool :=
  !v.2.isDir && supportedExt (ToLower tbl (Ext v.1))

/-- The paths of the eligible visits of a log, in order. -/
def eligiblePaths (tbl : Char → Char) (log : List (GoString × FileInfo)) : List GoString :=
  (log.filter (eligible tbl)).map Prod.fst

mutual
/-- No `lstat` or directory-read failure anywhere in the tree. -/
def FsNode.healthy : FsNode → Bool
  | .file _ => true
  | .dir _ entries => healthyList entries
  | .unreadableDir _ _ => false
  | .noStat _ _ => false
/-- No failure in any tree of the list. -/
def healthyList : List FsNode → Bool
  | [] => true
  | n :: rest => n.healthy && healthyList rest
end

mutual
/-- Every entry of the tree placed at `path`, the root included, with its path and
whether it is a directory, in lexical order. -/
def listing (path : GoString) : FsNode → List (GoString × FileInfo)
  | .file _ => [(path, ⟨false⟩)]
  | .dir _ entries => (path, ⟨true⟩) :: listingNames path entries
  | .unreadableDir _ _ => [(path, ⟨true⟩)]
  | .noStat _ _ => []
/-- The entries below the directory `path`. -/
def listingNames (path : GoString) : List FsNode → List (GoString × FileInfo)
  | [] => []
  | n :: rest => listing (Join path n.name) n ++ listingNames path rest
end

/-! ## `convertToWebP` (lines 221-258) -/

/-- The three decoders of the switch of line 231. -/
inductive Decoder
  | jpeg
  | png
  | gif
  deriving DecidableEq, Repr

/-- What `convertToWebP` does to the outside world, in order. -/
inductive Effect
  | opened (inputPath : GoString)
  | decoded (d : Decoder) (inputPath : GoString)
  | created (outputPath : GoString)
  | encoded (outputPath : GoString) (quality : Int) (lossless : Bool)
  | closed (path : GoString)
  deriving DecidableEq, Repr

/-- The operating system and the codecs. Every oracle answers `none` for success or
the code of the error; `caseTable` is the Unicode lower-case table for non-ASCII
runes; `inputTree` is what `lstat` and directory reads find at the input directory. -/
structure Env where
  caseTable : Char → Char
  mkdirAll : GoString → Option Nat
  inputTree : FsNode
  openFile : GoString → Option Nat
  decode : Decoder → GoString → Option Nat
  createFile : GoString → Option Nat
  encode : GoString → Decoder → GoString → Int → Bool → Option Nat

/-- The switch of lines 231-240 on the lower-cased extension; `none` is the default
case. -/
def selectDecoder (ext : GoString) : Option Decoder :=
  if ext = ".jpg".toList ∨ ext = ".jpeg".toList then some .jpeg
  else if ext = ".png".toList then some .png
  else if ext = ".gif".toList then some .gif
  else none

/-- The function `convertToWebP`: the returned error and the effects performed, the
closes of the two `defer` statements included. -/
def convertToWebP (env : Env) (inputPath outputPath : GoString) (quality : Int)
    (lossless : Bool) : Option GoError × List Effect :=
  match env.openFile inputPath with
  | some err => (some (.openFailed inputPath (.os err)), [])
  | none =>
    let ext := ToLower env.caseTable (Ext inputPath)
    match selectDecoder ext with
    | none => (some (.unsupportedFormat ext), [.opened inputPath, .closed inputPath])
    | some d =>
      match env.decode d inputPath with
      | some err =>
        (some (.decodeFailed inputPath (.os err)),
          [.opened inputPath, .decoded d inputPath, .closed inputPath])
      | none =>
        match env.createFile outputPath with
        | some err =>
          (some (.createFailed outputPath (.os err)),
            [.opened inputPath, .decoded d inputPath, .closed inputPath])
        | none =>
          ((env.encode outputPath d inputPath quality lossless).map GoError.os,
            [.opened inputPath, .decoded d inputPath, .created outputPath,
              .encoded outputPath quality lossless, .closed outputPath, .closed inputPath])

/-! ## `convertFolderToWebP`: path mapping (lines 175-185) -/

/-- Go `filepath.Dir` (Unix): everything up to the last separator, cleaned. -/
def Dir (path : GoString) : GoString :=
  Clean (path.reverse.dropWhile (fun x => x ≠ Separator)).reverse

/-- The arguments of `convertFolderToWebP` other than the two widgets. -/
structure Params where
  inputDir : GoString
  outputDir : GoString
  quality : Int
  lossless : Bool
  maxThreads : Nat

/-- The output path computed at lines 176-181, before the directory is made. -/
def outputPathOf (env : Env) (p : Params) (inputPath : GoString) : Except GoError GoString :=
  match Rel p.inputDir inputPath with
  | .error e => .error e
  | .ok relPath =>
    let ext := ToLower env.caseTable (Ext inputPath)
    .ok (Join p.outputDir (TrimSuffix relPath ext ++ ".webp".toList))

/-- Lines 176-185 of the loop body: the output path, or the error returned. -/
def mapPath (env : Env) (p : Params) (inputPath : GoString) : Except GoError GoString :=
  match outputPathOf env p inputPath with
  | .error e => .error e
  | .ok outputPath =>
    match env.mkdirAll (Dir outputPath) with
    | some err => .error (.subDirFailed (.os err))
    | none => .ok outputPath

/-! ## `convertFolderToWebP`: the goroutines as a transition system -/

/-- Program counter of the goroutine that runs `convertFolderToWebP`. -/
inductive MainPc
  /-- Line 133: nothing done yet. -/
  | entry
  /-- Line 171/172 before the send on `sem` for `files[i]`; with `i = len(files)` the
  loop is over and line 208 is next. -/
  | loopHead (i : Nat)
  /-- Lines 175-204 for `files[i]`: the slot is taken and `wg.Add(1)` is done. -/
  | dispatch (i : Nat)
  /-- Line 214. -/
  | checkErr
  /-- Line 215. -/
  | recvErr
  /-- The function has returned `result` (`none` is `nil`). -/
  | returned (result : Option GoError)
  deriving DecidableEq, Repr

/-- Program counter of a conversion goroutine (lines 188-204). -/
inductive TaskPc
  /-- Line 192: `convertToWebP` is running. -/
  | converting
  /-- Lines 193-196: the `select` with the error `err`. -/
  | sendErr (err : GoError)
  /-- Line 201, first half: load `processed`. -/
  | loadProcessed
  /-- Line 201, second half: store the loaded value `r` plus one. -/
  | storeProcessed (r : Nat)
  /-- Line 202: load `processed` for `SetValue`. -/
  | loadForValue
  /-- Line 202: call `SetValue` with the loaded `v`. -/
  | callSetValue (v : Nat)
  /-- Line 203: load `processed` and `len(files)` for the status text. -/
  | loadForText
  /-- Line 203: call `SetText`. -/
  | callSetText (v total : Nat)
  /-- Line 190, deferred: receive from `sem`. -/
  | release
  /-- Line 189, deferred: `wg.Done()`. -/
  | wgDone
  /-- The goroutine has ended. -/
  | finished
  deriving DecidableEq, Repr

/-- A conversion goroutine with the arguments bound at line 204. -/
structure Task where
  input : GoString
  output : GoString
  pc : TaskPc
  deriving DecidableEq, Repr

/-- Program counter of the goroutine of lines 208-211. -/
inductive WaiterPc
  | notStarted
  /-- Line 209: blocked in `wg.Wait()`. -/
  | waiting
  /-- Line 210: about to close `errChan`. -/
  | closing
  | finished
  deriving DecidableEq, Repr

/-- The two fields of the progress bar the function writes. The values are the
`float64` conversions of small integers, kept here as the integers. -/
structure ProgressBar where
  Max : Nat
  Value : Nat
  deriving DecidableEq, Repr

/-- The shared state of one call of `convertFolderToWebP`. -/
structure State where
  main : MainPc
  /-- The slice `files`, set once discovery is over. -/
  files : List GoString
  /-- Number of tokens buffered in `sem`. -/
  sem : Nat
  /-- Counter of the wait group. -/
  wg : Nat
  /-- Buffered content of `errChan` (capacity 1). -/
  errChan : List GoError
  errChanClosed : Bool
  processed : Nat
  /-- The goroutines started at line 188, in start order. -/
  tasks : List Task
  waiter : WaiterPc
  bar : ProgressBar
  /-- Arguments of the `SetValue` calls made so far, oldest first. -/
  setValueCalls : List Nat
  /-- The two numbers of the `SetText` calls made so far, oldest first. -/
  setTextCalls : List (Nat × Nat)
  deriving DecidableEq, Repr

/-- The state at the call, with the progress bar as the caller left it. -/
def State.init (bar : ProgressBar) : State :=
  { main := .entry, files := [], sem := 0, wg := 0, errChan := [], errChanClosed := false,
    processed := 0, tasks := [], waiter := .notStarted, bar := bar, setValueCalls := [],
    setTextCalls := [] }

/-- A goroutine that the scheduler can pick. -/
inductive Thread
  | main
  | task (i : Nat)
  | waiter
  deriving DecidableEq, Repr

/-- One step of the main goroutine; `none` when it is blocked or has returned. The
first step runs lines 133-169, before any other goroutine exists; the send on `sem`
and `wg.Add(1)` (lines 172-173) are one step, and so are lines 175-204 of the loop
body, which end with the `go` statement or with a `return`. -/
def stepMain (env : Env) (p : Params) (s : State) : Option State :=
  match s.main with
  | .entry =>
    match env.mkdirAll p.outputDir with
    | some err => some { s with main := .returned (some (.outputDirFailed (.os err))) }
    | none =>
      match Walk (walkFn env.caseTable) p.inputDir env.inputTree [] with
      | (_, some err) => some { s with main := .returned (some err) }
      | (files, none) =>
        if files.length = 0 then some { s with main := .returned (some .noSupportedImages) }
        else
          some { s with main := .loopHead 0, files := files,
                        bar := { Max := files.length, Value := 0 } }
  | .loopHead i =>
    if i < s.files.length then
      if s.sem < p.maxThreads then
        some { s with sem := s.sem + 1, wg := s.wg + 1, main := .dispatch i }
      else none
    else some { s with waiter := .waiting, main := .checkErr }
  | .dispatch i =>
    match s.files.get? i with
    | none => none
    | some inputPath =>
      match mapPath env p inputPath with
      | .error e => some { s with main := .returned (some e) }
      | .ok outputPath =>
        some { s with tasks := s.tasks ++ [⟨inputPath, outputPath, .converting⟩],
                      main := .loopHead (i + 1) }
  | .checkErr =>
    if s.errChan.length > 0 then some { s with main := .recvErr }
    else some { s with main := .returned none }
  | .recvErr =>
    match s.errChan with
    | e :: rest => some { s with errChan := rest, main := .returned (some e) }
    | [] => if s.errChanClosed then some { s with main := .returned none } else none
  | .returned _ => none

/-- One step of the conversion goroutine `t`, which is `tasks[i]`; `none` when it is
blocked or has ended. -/
def stepTask (env : Env) (p : Params) (s : State) (i : Nat) (t : Task) : Option State :=
  match t.pc with
  | .converting =>
    match (convertToWebP env t.input t.output p.quality p.lossless).1 with
    | some err => some { s with tasks := s.tasks.set i { t with pc := .sendErr err } }
    | none => some { s with tasks := s.tasks.set i { t with pc := .loadProcessed } }
  | .sendErr err =>
    if s.errChanClosed then none
    else if s.errChan.length < 1 then
      some { s with errChan := s.errChan ++ [err],
                    tasks := s.tasks.set i { t with pc := .release } }
    else some { s with tasks := s.tasks.set i { t with pc := .release } }
  | .loadProcessed =>
    some { s with tasks := s.tasks.set i { t with pc := .storeProcessed s.processed } }
  | .storeProcessed r =>
    some { s with processed := r + 1, tasks := s.tasks.set i { t with pc := .loadForValue } }
  | .loadForValue =>
    some { s with tasks := s.tasks.set i { t with pc := .callSetValue s.processed } }
  | .callSetValue v =>
    some { s with bar := { s.bar with Value := v }, setValueCalls := s.setValueCalls ++ [v],
                  tasks := s.tasks.set i { t with pc := .loadForText } }
  | .loadForText =>
    some { s with
      tasks := s.tasks.set i { t with pc := .callSetText s.processed s.files.length } }
  | .callSetText v total =>
    some { s with setTextCalls := s.setTextCalls ++ [(v, total)],
                  tasks := s.tasks.set i { t with pc := .release } }
  | .release =>
    if s.sem > 0 then
      some { s with sem := s.sem - 1, tasks := s.tasks.set i { t with pc := .wgDone } }
    else none
  | .wgDone =>
    if s.wg > 0 then
      some { s with wg := s.wg - 1, tasks := s.tasks.set i { t with pc := .finished } }
    else none
  | .finished => none

/-- One step of the goroutine of lines 208-211. -/
def stepWaiter (s : State) : Option State :=
  match s.waiter with
  | .notStarted => none
  | .waiting => if s.wg = 0 then some { s with waiter := .closing } else none
  | .closing => some { s with errChanClosed := true, waiter := .finished }
  | .finished => none

/-- One step of the chosen goroutine. -/
def step (env : Env) (p : Params) (s : State) : Thread → Option State
  | .main => stepMain env p s
  | .task i =>
    match s.tasks.get? i with
    | none => none
    | some t => stepTask env p s i t
  | .waiter => stepWaiter s

/-- Run a schedule: the goroutines step in the listed order; `none` when a listed
goroutine cannot step. -/
def exec (env : Env) (p : Params) : List Thread → State → Option State
  | [], s => some s
  | t :: sched, s =>
    match step env p s t with
    | none => none
    | some s1 => exec env p sched s1

/-- The function `convertFolderToWebP` called with the progress bar `bar`, its
goroutines scheduled by `sched`: the state reached, `none` when the schedule picks a
goroutine that cannot step. The value returned is in the `main` field. -/
def convertFolderToWebP (env : Env) (p : Params) (bar : ProgressBar)
    (sched : List Thread) : Option State :=
  exec env p sched (State.init bar)

/-- The states some schedule leads to from the call. -/
def Reachable (env : Env) (p : Params) (bar : ProgressBar) (s : State) : Prop :=
  ∃ sched, convertFolderToWebP env p bar sched = some s

/-- A conversion goroutine counts as running from its start until it has given its
slot back (lines 188-190). -/
def Task.running (t : Task) : Bool :=
  match t.pc with
  | .wgDone => false
  | .finished => false
  | _ => true

/-- Number of conversion goroutines running in a state. -/
def State.running (s : State) : Nat :=
  s.tasks.countP Task.running

/-- A goroutine that has not yet reached the end of its function. -/
def Task.live (t : Task) : Bool :=
  match t.pc with
  | .finished => false
  | _ => true

/-- A goroutine that has not yet passed the store of line 201 and may still do it. -/
def Task.beforeStore (t : Task) : Bool :=
  match t.pc with
  | .converting => true
  | .sendErr _ => true
  | .loadProcessed => true
  | .storeProcessed _ => true
  | _ => false

/-- The slot of line 172 is taken and the goroutine for it is not started yet. -/
def MainPc.holdsSlot : MainPc → Bool
  | .dispatch _ => true
  | _ => false

/-! ## Concrete environments and inputs -/

/-- An environment in which every operation succeeds. -/
def quietEnv (tree : FsNode) : Env :=
  { caseTable := id, mkdirAll := fun _ => none, inputTree := tree, openFile := fun _ => none,
    decode := fun _ _ => none, createFile := fun _ => none, encode := fun _ _ _ _ _ => none }

/-- An environment in which every image is corrupt: decoding fails with code 1. -/
def corruptEnv (tree : FsNode) : Env :=
  { quietEnv tree with decode := fun _ _ => some 1 }

/-- An environment in which `out/sub` cannot be made (code 13), all else succeeds. -/
def noSubDirEnv (tree : FsNode) : Env :=
  { quietEnv tree with mkdirAll := fun d => if d = "out/sub".toList then some 13 else none }

/-- An environment in which the output root `out` cannot be made (code 13). -/
def noOutputEnv (tree : FsNode) : Env :=
  { quietEnv tree with mkdirAll := fun d => if d = "out".toList then some 13 else none }

/-- The call `convertFolderToWebP("in", "out", 80, false, k, ...)`. -/
def sampleParams (k : Nat) : Params :=
  { inputDir := "in".toList, outputDir := "out".toList, quality := 80, lossless := false,
    maxThreads := k }

/-- The progress bar as `main` creates it (lines 51-54). -/
def freshBar : ProgressBar :=
  { Max := 1, Value := 0 }

/-- An input directory with one image. -/
def oneFile : FsNode :=
  .dir "in".toList [.file "a.jpg".toList]

/-- An input directory with two images. -/
def twoFiles : FsNode :=
  .dir "in".toList [.file "a.jpg".toList, .file "b.png".toList]

/-- An input directory with five images. -/
def fiveFiles : FsNode :=
  .dir "in".toList [.file "a.jpg".toList, .file "b.png".toList, .file "c.gif".toList,
    .file "d.jpeg".toList, .file "e.JPG".toList]

/-- An empty input directory. -/
def emptyDir : FsNode :=
  .dir "in".toList []

/-- An input directory whose names cannot be read (code 13), whatever it holds. -/
def lockedDir : FsNode :=
  .unreadableDir "in".toList 13

/-! ## Invariants of the transition system -/

/-- Slots: every running goroutine, and the dispatch in progress, holds one token of
`sem`, and `sem` never holds more tokens than its capacity `maxThreads`. -/
def SlotInv (p : Params) (s : State) : Prop :=
  s.running + (if s.main.holdsSlot then 1 else 0) ≤ s.sem ∧ s.sem ≤ p.maxThreads

/-- The state a schedule leads to from the call with a fresh progress bar (the
initial state when the schedule cannot run). -/
def stateAfter (env : Env) (p : Params) (sched : List Thread) : State :=
  (convertFolderToWebP env p freshBar sched).getD (State.init freshBar)

/-- A goroutine that will not store to `processed` any more: it has done the store of
line 201, or its conversion failed. -/
def Task.pastStore (t : Task) : Bool :=
  !t.beforeStore

/-- Number of goroutines that will not store to `processed` any more. -/
def State.pastStore (s : State) : Nat :=
  s.tasks.countP Task.pastStore

/-- What the values held in the registers of a goroutine satisfy: `w` is the number
of goroutines past their store, `total` is `len(files)`. -/
def TaskOk (w processed total : Nat) (t : Task) : Prop :=
  match t.pc with
  | .storeProcessed r => r ≤ w
  | .loadForValue => 1 ≤ processed
  | .callSetValue v => 1 ≤ v ∧ v ≤ total
  | _ => True

/-- How far the dispatch loop is: one goroutine per file already dispatched. -/
def MainOk (s : State) : Prop :=
  match s.main with
  | .entry => s.tasks.length = 0 ∧ s.files = []
  | .loopHead i => s.tasks.length = i
  | .dispatch i => s.tasks.length = i ∧ i < s.files.length
  | _ => True

/-- Progress accounting: the counter never exceeds the number of goroutines past
their store, which never exceeds `len(files)`; reported values lie in
`1 .. len(files)`; the maximum of the bar is `len(files)` once files are found. -/
def CountInv (s : State) : Prop :=
  MainOk s ∧ s.tasks.length ≤ s.files.length ∧ s.processed ≤ s.pastStore ∧
    (∀ t ∈ s.tasks, TaskOk s.pastStore s.processed s.files.length t) ∧
    (∀ v ∈ s.setValueCalls, 1 ≤ v ∧ v ≤ s.files.length) ∧
    (s.files ≠ [] → s.bar.Max = s.files.length)

/-- Number of conversion goroutines that have not ended. -/
def State.live (s : State) : Nat :=
  s.tasks.countP Task.live

/-- The dispatch loop is over (line 208 has been executed or the function returned). -/
def MainPc.pastLoop : MainPc → Bool
  | .checkErr => true
  | .recvErr => true
  | .returned _ => true
  | _ => false

/-- The function has returned. -/
def MainPc.isReturned : MainPc → Bool
  | .returned _ => true
  | _ => false

/-- The error channel: at most one buffered error; the waiting goroutine is started
only after the loop, when the wait-group counter is the number of goroutines that have
not ended; until the function returns the counter is that number plus the dispatch in
progress; the channel is closed only after every conversion goroutine has ended. -/
def ChanInv (s : State) : Prop :=
  s.errChan.length ≤ 1 ∧
    (s.waiter = .notStarted ∨ (s.main.pastLoop = true ∧ s.wg = s.live)) ∧
    (s.main.isReturned = true ∨ s.wg = s.live + (if s.main.holdsSlot then 1 else 0)) ∧
    (s.waiter = .closing ∨ s.waiter = .finished → s.live = 0) ∧
    (s.errChanClosed = true → s.waiter = .finished)

/-- An input directory with one image at the top and one in the subdirectory `sub`. -/
def mixedTree : FsNode :=
  .dir "in".toList [.file "a.jpg".toList, .dir "sub".toList [.file "c.gif".toList]]

/-- Discovery and the dispatch of two files with two slots: both goroutines started. -/
def dispatchTwo : List Thread :=
  [.main, .main, .main, .main, .main]

/-- After `dispatchTwo`: the first goroutine fails and stores its error. -/
def firstErrorStored : List Thread :=
  dispatchTwo ++ [.task 0, .task 0]

/-- After `firstErrorStored`: the function ends the loop, finds the error and
receives it (lines 208-215); then the second goroutine fails and does its `select`. -/
def secondErrorAfterReceive : List Thread :=
  [.main, .main, .main, .task 1, .task 1]

/-- One file, one slot: the function runs to its return before the goroutine it
started takes a step. -/
def returnBeforeTask : List Thread :=
  [.main, .main, .main, .main, .main]

/-- A goroutine whose conversion fails, from its start to its end. -/
def failingTaskRun (i : Nat) : List Thread :=
  [.task i, .task i, .task i, .task i]

/-- After `dispatchTwo`: both goroutines convert and load `processed` before either
stores it; then each runs to its end. -/
def lostUpdate : List Thread :=
  dispatchTwo ++ [.task 0, .task 1, .task 0, .task 1] ++
    [.task 0, .task 0, .task 0, .task 0, .task 0, .task 0, .task 0] ++
    [.task 1, .task 1, .task 1, .task 1, .task 1, .task 1, .task 1]

/-- A goroutine whose conversion succeeds, from its start to its end. -/
def successfulTaskRun (i : Nat) : List Thread :=
  List.replicate 9 (.task i)

/-- Two files, the second in a subdirectory that cannot be made: the first is
dispatched, the function returns at line 184 with the second slot taken, and the
first goroutine then runs to its end. -/
def subDirFailure : List Thread :=
  [.main, .main, .main, .main, .main] ++ successfulTaskRun 0

/-- Two files, one slot: each goroutine is run to its end before the next dispatch;
the function then starts the waiting goroutine, checks the channel and returns, and
the waiting goroutine closes the channel. -/
def sequentialRun : List Thread :=
  [.main, .main, .main] ++ successfulTaskRun 0 ++ [.main, .main] ++ successfulTaskRun 1 ++
    [.main, .main, .waiter, .waiter]

/-- The state in which the function has returned `r` and nothing else has happened
since the call. -/
def State.returnedAtOnce (bar : ProgressBar) (r : Option GoError) : State :=
  { State.init bar with main := .returned r }

/-! ## Theorems -/

/-! ## The path helpers on concrete paths -/

/-- The transcribed `path/filepath` and `strings` helpers on sample paths. -/
theorem path_helpers_samples :
    Ext "in/sub/C.GIF".toList = ".GIF".toList ∧
      Ext "in/su.b/C".toList = [] ∧
      ToLower id (Ext "in/sub/C.GiF".toList) = ".gif".toList ∧
      Clean "a//b/./c/../d/".toList = "a/b/d".toList ∧
      Clean "/../a/../..".toList = "/".toList ∧
      Clean "../../a/..".toList = "../..".toList ∧
      Clean "a/..".toList = ".".toList ∧
      Join "out".toList "sub/C.GIF.webp".toList = "out/sub/C.GIF.webp".toList ∧
      Dir "out/sub/c.webp".toList = "out/sub".toList ∧
      Rel "in".toList "in/sub/C.GIF".toList = .ok "sub/C.GIF".toList ∧
      Rel "/a/b".toList "/a/c/d".toList = .ok "../c/d".toList ∧
      Rel "/a/b/c".toList "/a".toList = .ok "../..".toList ∧
      Rel ".".toList "x/y".toList = .ok "x/y".toList ∧
      Rel "a".toList "/a".toList = .error (.relFailed "/a".toList "a".toList) ∧
      Rel "..".toList "a".toList = .error (.relFailed "a".toList "..".toList) ∧
      Rel "../..".toList "..".toList = .error (.relFailed "..".toList "../..".toList) ∧
      Rel "../../a".toList "../../a/b".toList = .ok "b".toList ∧
      TrimSuffix "sub/C.GIF".toList ".gif".toList = "sub/C.GIF".toList ∧
      TrimSuffix "sub/c.gif".toList ".gif".toList = "sub/c".toList := by
  decide

/-- The sample tree is walked in lexical order and four paths are collected. -/
theorem sampleTree_walk :
    Walk (walkFn id) "in".toList sampleTree [] =
      (["in/a.png".toList, "in/b.jpg".toList, "in/sub/C.GIF".toList, "in/sub/c.gif".toList],
        none) := by
  decide

theorem eligiblePaths_append (tbl : Char → Char) (l : List (GoString × FileInfo))
    (v : GoString × FileInfo) :
    eligiblePaths tbl (l ++ [v]) =
      eligiblePaths tbl l ++ (if eligible tbl v then [v.1] else []) := by
  unfold eligiblePaths
  by_cases h : eligible tbl v = true <;> simp [List.filter_append, h]

/-- One callback invocation: the source closure and the recording closure agree on
the error, and the collected files stay the eligible part of the log. -/
theorem walkFn_sim (tbl : Char → Char) (path : GoString) (info : Option FileInfo)
    (err : Option GoError) (log : List (GoString × FileInfo)) :
    walkFn tbl (eligiblePaths tbl log) path info err =
      (eligiblePaths tbl (recordFn log path info err).1, (recordFn log path info err).2) := by
  unfold walkFn recordFn
  cases err with
  | some e => rfl
  | none =>
    cases info with
    | none => rfl
    | some i =>
      simp only [eligiblePaths_append, eligible]
      cases hi : i.isDir <;> simp
      split <;> simp_all

mutual
/-- The walk with the source closure is the walk with the recording closure, filtered. -/
theorem walk_sim (tbl : Char → Char) (path : GoString) :
    ∀ (node : FsNode) (log : List (GoString × FileInfo)),
      walk (walkFn tbl) path node (eligiblePaths tbl log) =
        (eligiblePaths tbl (walk recordFn path node log).1, (walk recordFn path node log).2)
  | .file _, log => by simp only [walk, walkFn_sim]
  | .noStat _ _, log => by simp only [walk, walkFn_sim]
  | .unreadableDir _ _, log => by simp only [walk, walkFn_sim]
  | .dir _ entries, log => by
    simp only [walk, walkFn_sim]
    rcases h : recordFn log path (some ⟨true⟩) none with ⟨l1, _ | e⟩
    · simp only [walkNames_sim tbl path entries l1]
    · simp
/-- The same for the loop over the names of a directory. -/
theorem walkNames_sim (tbl : Char → Char) (path : GoString) :
    ∀ (entries : List FsNode) (log : List (GoString × FileInfo)),
      walkNames (walkFn tbl) path entries (eligiblePaths tbl log) =
        (eligiblePaths tbl (walkNames recordFn path entries log).1,
          (walkNames recordFn path entries log).2)
  | [], log => by simp [walkNames]
  | n :: rest, log => by
    have hn := walk_sim tbl (Join path n.name) n log
    rcases h : walk recordFn (Join path n.name) n log with ⟨l1, _ | e⟩
    · rw [h] at hn
      cases n <;> simp only [walkNames, hn, h, walkNames_sim tbl path rest l1]
    · rw [h] at hn
      cases n <;> simp only [walkNames, hn, h] <;> split <;>
        simp only [walkNames_sim tbl path rest l1]
end

mutual
/-- On a tree without failures the recording walk visits the whole listing. -/
theorem walk_record_healthy (path : GoString) :
    ∀ (node : FsNode) (log : List (GoString × FileInfo)), node.healthy = true →
      walk recordFn path node log = (log ++ listing path node, none)
  | .file _, log, _ => by simp [walk, recordFn, listing]
  | .noStat _ _, log, h => by simp [FsNode.healthy] at h
  | .unreadableDir _ _, log, h => by simp [FsNode.healthy] at h
  | .dir _ entries, log, h => by
    simp only [FsNode.healthy] at h
    simp [walk, recordFn, listing, walkNames_record_healthy path entries _ h]
/-- The same for the loop over the names of a directory. -/
theorem walkNames_record_healthy (path : GoString) :
    ∀ (entries : List FsNode) (log : List (GoString × FileInfo)), healthyList entries = true →
      walkNames recordFn path entries log = (log ++ listingNames path entries, none)
  | [], log, _ => by simp [walkNames, listingNames]
  | n :: rest, log, h => by
    simp only [healthyList, Bool.and_eq_true] at h
    have h1 := walk_record_healthy (Join path n.name) n log h.1
    have h2 := walkNames_record_healthy path rest (log ++ listing (Join path n.name) n) h.2
    cases n <;> simp [walkNames, h1, h2, listingNames]
end

theorem Walk_sim (tbl : Char → Char) (root : GoString) (node : FsNode) :
    Walk (walkFn tbl) root node [] =
      (eligiblePaths tbl (Walk recordFn root node []).1, (Walk recordFn root node []).2) := by
  have h := walk_sim tbl root node []
  have h0 : eligiblePaths tbl [] = [] := rfl
  rw [h0] at h
  unfold Walk
  rw [h]
  rcases walk recordFn root node [] with ⟨l1, _ | e⟩
  · simp
  · by_cases he : e = .SkipDir ∨ e = .SkipAll <;> simp [he]

theorem Walk_record_healthy (root : GoString) (node : FsNode) (h : node.healthy = true) :
    Walk recordFn root node [] = (listing root node, none) := by
  unfold Walk
  rw [walk_record_healthy root node [] h]
  simp

theorem countP_split (tbl : Char → Char) (l : List (GoString × FileInfo)) :
    l.countP (eligible tbl) +
      l.countP (fun v => !v.2.isDir && !supportedExt (ToLower tbl (Ext v.1))) =
      l.countP (fun v => !v.2.isDir) := by
  induction l with
  | nil => rfl
  | cons v l ih =>
    simp only [List.countP_cons, eligible]
    by_cases hd : v.2.isDir = true <;>
      by_cases hs : supportedExt (ToLower tbl (Ext v.1)) = true <;>
      simp [hd, hs] <;> omega

theorem mem_eligiblePaths (tbl : Char → Char) (log : List (GoString × FileInfo))
    (path : GoString) :
    path ∈ eligiblePaths tbl log ↔
      ∃ v ∈ log, v.1 = path ∧ v.2.isDir = false ∧ supportedExt (ToLower tbl (Ext v.1)) = true := by
  unfold eligiblePaths eligible
  simp only [List.mem_map, List.mem_filter, Bool.and_eq_true, Bool.not_eq_true']
  constructor
  · rintro ⟨v, ⟨hv, hd, hs⟩, rfl⟩
    exact ⟨v, hv, rfl, hd, hs⟩
  · rintro ⟨v, hv, rfl, hd, hs⟩
    exact ⟨v, ⟨hv, hd, hs⟩, rfl⟩

theorem length_eligiblePaths (tbl : Char → Char) (log : List (GoString × FileInfo)) :
    (eligiblePaths tbl log).length = log.countP (eligible tbl) := by
  unfold eligiblePaths
  rw [List.length_map, List.countP_eq_length_filter]

/-- C1. Discovery (lines 139-155). The walk with the closure of the source collects
exactly the visited entries that are not directories and whose lower-cased extension
is `.jpg`, `.jpeg`, `.png` or `.gif`, once each and in visiting order; it fails exactly
when a walk that only records its visits fails. So a visited non-directory is in the
list iff its extension is supported, every collected path belongs to a visited
non-directory, and the list has as many paths as there are visited supported entries.
On a tree that can be read throughout, the walk succeeds, the visits are the whole
listing of the tree, and with `N` supported and `M` unsupported non-directories the
list has exactly `N` paths. -/
theorem discovery_collects_supported_files (tbl : Char → Char) (inputDir : GoString)
    (tree : FsNode) :
    (Walk (walkFn tbl) inputDir tree []).1 =
        eligiblePaths tbl (Walk recordFn inputDir tree []).1 ∧
      (Walk (walkFn tbl) inputDir tree []).2 = (Walk recordFn inputDir tree []).2 ∧
      (∀ v ∈ (Walk recordFn inputDir tree []).1, v.2.isDir = false →
        (v.1 ∈ (Walk (walkFn tbl) inputDir tree []).1 ↔
          supportedExt (ToLower tbl (Ext v.1)) = true)) ∧
      (∀ path ∈ (Walk (walkFn tbl) inputDir tree []).1,
        ∃ v ∈ (Walk recordFn inputDir tree []).1, v.1 = path ∧ v.2.isDir = false) ∧
      (Walk (walkFn tbl) inputDir tree []).1.length =
        (Walk recordFn inputDir tree []).1.countP (eligible tbl) ∧
      (tree.healthy = true →
        (Walk (walkFn tbl) inputDir tree []).2 = none ∧
        (Walk recordFn inputDir tree []).1 = listing inputDir tree ∧
        ∀ N M : Nat,
          (listing inputDir tree).countP (eligible tbl) = N →
          (listing inputDir tree).countP
            (fun v => !v.2.isDir && !supportedExt (ToLower tbl (Ext v.1))) = M →
          (Walk (walkFn tbl) inputDir tree []).1.length = N ∧
          (listing inputDir tree).countP (fun v => !v.2.isDir) = N + M) := by
  have hsim := Walk_sim tbl inputDir tree
  have h1 : (Walk (walkFn tbl) inputDir tree []).1 =
      eligiblePaths tbl (Walk recordFn inputDir tree []).1 := by rw [hsim]
  have h2 : (Walk (walkFn tbl) inputDir tree []).2 = (Walk recordFn inputDir tree []).2 := by
    rw [hsim]
  refine ⟨h1, h2, ?_, ?_, ?_, ?_⟩
  · intro v hv hd
    rw [h1, mem_eligiblePaths]
    constructor
    · rintro ⟨w, _, hw, _, hs⟩
      rw [← hw]
      exact hs
    · intro hs
      exact ⟨v, hv, rfl, hd, hs⟩
  · intro path hp
    rw [h1, mem_eligiblePaths] at hp
    obtain ⟨v, hv, hw, hd, _⟩ := hp
    exact ⟨v, hv, hw, hd⟩
  · rw [h1, length_eligiblePaths]
  · intro hh
    have hr := Walk_record_healthy inputDir tree hh
    refine ⟨by rw [h2, hr], by rw [hr], ?_⟩
    intro N M hN hM
    refine ⟨by rw [h1, length_eligiblePaths, hr, hN], ?_⟩
    rw [← hN, ← hM, countP_split]

/-- Witness for C1: the sample tree (four supported files, one of them `C.GIF`, one
text file, and a directory named `dir.jpg`). -/
theorem discovery_collects_supported_files_witness :
    sampleTree.healthy = true ∧
      (Walk (walkFn id) "in".toList sampleTree []).1.length = 4 ∧
      (listing "in".toList sampleTree).countP (fun v => !v.2.isDir) = 4 + 1 :=
  ⟨by decide,
    ((discovery_collects_supported_files id "in".toList sampleTree).2.2.2.2.2
      (by decide)).2.2 4 1 (by decide) (by decide)⟩

theorem selectDecoder_isSome (ext : GoString) :
    (selectDecoder ext).isSome = supportedExt ext := by
  unfold selectDecoder supportedExt
  split_ifs with h1 h2 h3 <;> simp_all
  rcases h1 with h | h <;> simp [h]

theorem selectDecoder_jpeg (ext : GoString) :
    selectDecoder ext = some .jpeg ↔ (ext = ".jpg".toList ∨ ext = ".jpeg".toList) := by
  unfold selectDecoder
  split_ifs with h1 h2 h3 <;> simp_all

theorem selectDecoder_png (ext : GoString) :
    selectDecoder ext = some .png ↔ ext = ".png".toList := by
  unfold selectDecoder
  split_ifs with h1 h2 h3 <;> simp_all
  rcases h1 with h | h <;> simp [h]

theorem selectDecoder_gif (ext : GoString) :
    selectDecoder ext = some .gif ↔ ext = ".gif".toList := by
  unfold selectDecoder
  split_ifs with h1 h2 h3 <;> simp_all
  rcases h1 with h | h <;> simp [h]

/-- With the input opened, the error and the decoder used depend on the switch only:
the default case returns the unsupported-format error after open and close alone,
every other case decodes with the selected decoder and never returns that error. -/
theorem convertToWebP_cases (env : Env) (inputPath outputPath : GoString) (quality : Int)
    (lossless : Bool) (hopen : env.openFile inputPath = none) :
    (selectDecoder (ToLower env.caseTable (Ext inputPath)) = none ∧
      convertToWebP env inputPath outputPath quality lossless =
        (some (.unsupportedFormat (ToLower env.caseTable (Ext inputPath))),
          [.opened inputPath, .closed inputPath])) ∨
    (∃ d, selectDecoder (ToLower env.caseTable (Ext inputPath)) = some d ∧
      (∀ e, (convertToWebP env inputPath outputPath quality lossless).1 ≠
        some (.unsupportedFormat e)) ∧
      ∀ d1 path, Effect.decoded d1 path ∈
        (convertToWebP env inputPath outputPath quality lossless).2 ↔
          (d1 = d ∧ path = inputPath)) := by
  unfold convertToWebP
  rw [hopen]
  rcases hsel : selectDecoder (ToLower env.caseTable (Ext inputPath)) with _ | d
  · left
    simp [hsel]
  · right
    refine ⟨d, rfl, ?_⟩
    rcases hdec : env.decode d inputPath with _ | e1
    · rcases hcr : env.createFile outputPath with _ | e2
      · rcases henc : env.encode outputPath d inputPath quality lossless with _ | e3 <;>
          simp [hsel, hdec, hcr, henc]
      · simp [hsel, hdec, hcr]
    · simp [hsel, hdec]

/-! ## Lists of goroutines under an update -/

theorem countP_set_of_getElem (f : Task → Bool) :
    ∀ (l : List Task) (i : Nat) (t t1 : Task), l.get? i = some t →
      (l.set i t1).countP f + (if f t then 1 else 0) = l.countP f + (if f t1 then 1 else 0)
  | [], i, t, t1, h => by simp at h
  | a :: l, 0, t, t1, h => by
    simp only [List.get?_cons_zero, Option.some.injEq] at h
    subst h
    simp only [List.set_cons_zero, List.countP_cons]
    omega
  | a :: l, i + 1, t, t1, h => by
    simp only [List.get?_cons_succ] at h
    have ih := countP_set_of_getElem f l i t t1 h
    simp only [List.set_cons_succ, List.countP_cons]
    omega

theorem countP_ge_of_getElem (f : Task → Bool) (l : List Task) (i : Nat) (t : Task)
    (h : l.get? i = some t) : (if f t then 1 else 0) ≤ l.countP f := by
  have hm : t ∈ l := List.get?_mem h
  by_cases hf : f t = true
  · simp only [hf, if_true]
    exact List.countP_pos_iff.mpr ⟨t, hm, hf⟩
  · simp [hf]

theorem countP_set_eq (f : Task → Bool) (l : List Task) (i : Nat) (t t1 : Task)
    (h : l.get? i = some t) :
    (l.set i t1).countP f = l.countP f + (if f t1 then 1 else 0) - (if f t then 1 else 0) := by
  have h1 := countP_set_of_getElem f l i t t1 h
  omega

/-! ## Bounded concurrency -/

theorem slotInv_init (p : Params) (bar : ProgressBar) : SlotInv p (State.init bar) := by
  simp [SlotInv, State.init, State.running, MainPc.holdsSlot]

theorem slotInv_stepMain (env : Env) (p : Params) (s s1 : State)
    (h : stepMain env p s = some s1) (hi : SlotInv p s) : SlotInv p s1 := by
  unfold stepMain at h
  unfold SlotInv State.running at *
  split at h
  · split at h
    · simp at h; subst h; simp_all [MainPc.holdsSlot]
    · split at h
      · simp at h; subst h; simp_all [MainPc.holdsSlot]
      · split at h <;> (simp at h; subst h; simp_all [MainPc.holdsSlot])
  · split at h
    · split at h
      · simp at h; subst h; simp_all [MainPc.holdsSlot]; omega
      · simp at h
    · simp at h; subst h; simp_all [MainPc.holdsSlot]
  · split at h
    · simp at h
    · split at h
      · simp at h; subst h; simp_all [MainPc.holdsSlot]; omega
      · simp at h; subst h; simp_all [MainPc.holdsSlot, Task.running]
  · split at h <;> (simp at h; subst h; simp_all [MainPc.holdsSlot])
  · split at h
    · simp at h; subst h; simp_all [MainPc.holdsSlot]
    · split at h
      · simp at h; subst h; simp_all [MainPc.holdsSlot]
      · simp at h
  · simp at h

theorem slotInv_stepTask (env : Env) (p : Params) (s s1 : State) (i : Nat) (t : Task)
    (ht : s.tasks.get? i = some t) (h : stepTask env p s i t = some s1) (hi : SlotInv p s) :
    SlotInv p s1 := by
  unfold stepTask at h
  have hpos := countP_ge_of_getElem Task.running s.tasks i t ht
  unfold SlotInv State.running at *
  obtain ⟨n, hn⟩ : ∃ n, s.tasks.countP Task.running = n := ⟨_, rfl⟩
  split at h <;> (try split at h) <;> (try split at h) <;> simp at h <;> subst h <;>
    simp_all [countP_set_eq Task.running _ _ _ _ ht, Task.running] <;> omega

theorem slotInv_stepWaiter (p : Params) (s s1 : State) (h : stepWaiter s = some s1)
    (hi : SlotInv p s) : SlotInv p s1 := by
  unfold stepWaiter at h
  unfold SlotInv State.running at *
  split at h <;> (try split at h) <;> simp at h <;> subst h <;> simp_all

theorem slotInv_step (env : Env) (p : Params) (s : State) (t : Thread) (s1 : State)
    (hi : SlotInv p s) (h : step env p s t = some s1) : SlotInv p s1 := by
  cases t with
  | main => exact slotInv_stepMain env p s s1 h hi
  | waiter => exact slotInv_stepWaiter p s s1 h hi
  | task i =>
    simp only [step] at h
    split at h
    · simp at h
    · next t ht => exact slotInv_stepTask env p s s1 i t ht h hi

/-- A property kept by every step holds after every schedule. -/
theorem exec_invariant (env : Env) (p : Params) (I : State → Prop)
    (hstep : ∀ s t s1, I s → step env p s t = some s1 → I s1) :
    ∀ (sched : List Thread) (s s1 : State), I s → exec env p sched s = some s1 → I s1
  | [], s, s1, hi, h => by
    simp only [exec, Option.some.injEq] at h
    exact h ▸ hi
  | t :: sched, s, s1, hi, h => by
    simp only [exec] at h
    split at h
    · simp at h
    · next s2 hs2 => exact exec_invariant env p I hstep sched s2 s1 (hstep s t s2 hi hs2) h

/-- A property of the initial state kept by every step holds in every reachable state. -/
theorem reachable_invariant (env : Env) (p : Params) (bar : ProgressBar) (I : State → Prop)
    (hinit : I (State.init bar))
    (hstep : ∀ s t s1, I s → step env p s t = some s1 → I s1)
    (s : State) (h : Reachable env p bar s) : I s := by
  obtain ⟨sched, hs⟩ := h
  exact exec_invariant env p I hstep sched _ s hinit hs

/-- C5. Bounded concurrency. In every state reachable by the step function (the
dispatch takes a slot on `sem`, then starts the goroutine; the goroutine gives the slot
back when it ends), the number of running conversion goroutines is at most the
number of tokens in `sem`, which is at most `maxThreads`; this holds for every
`maxThreads` (so for every `k ≥ 1`) and every file list. With `maxThreads = 1` and
five files at most one goroutine is running in every reachable state. -/
theorem running_tasks_bounded (env : Env) (p : Params) (bar : ProgressBar) (s : State)
    (h : Reachable env p bar s) :
    s.running ≤ p.maxThreads ∧ s.running ≤ s.sem ∧ s.sem ≤ p.maxThreads ∧
      (p.maxThreads = 1 → s.running ≤ 1) := by
  have hi := reachable_invariant env p bar (SlotInv p) (slotInv_init p bar)
    (slotInv_step env p) s h
  unfold SlotInv at hi
  refine ⟨by omega, by omega, hi.2, fun h1 => by omega⟩

/-- Witness for C5: `maxThreads = 1`, five files, the first goroutine started. -/
theorem running_tasks_bounded_witness :
    Reachable (quietEnv fiveFiles) (sampleParams 1) freshBar
        (stateAfter (quietEnv fiveFiles) (sampleParams 1) [.main, .main, .main]) ∧
      (stateAfter (quietEnv fiveFiles) (sampleParams 1) [.main, .main, .main]).files.length = 5 ∧
      (stateAfter (quietEnv fiveFiles) (sampleParams 1) [.main, .main, .main]).tasks.length = 1 ∧
      (stateAfter (quietEnv fiveFiles) (sampleParams 1) [.main, .main, .main]).running ≤ 1 :=
  ⟨⟨[.main, .main, .main], by decide⟩, by decide, by decide,
    (running_tasks_bounded (quietEnv fiveFiles) (sampleParams 1) freshBar _
      ⟨[.main, .main, .main], by decide⟩).1⟩

/-! ## Progress accounting -/

theorem forall_mem_set {P : Task → Prop} {l : List Task} {i : Nat} {a : Task} (ha : P a)
    (hl : ∀ x ∈ l, P x) : ∀ x ∈ l.set i a, P x := by
  intro x hx
  rcases List.mem_or_eq_of_mem_set hx with h | h
  · exact hl x h
  · exact h ▸ ha

theorem taskOk_mono {w w1 pr pr1 total : Nat} {t : Task} (hw : w ≤ w1)
    (hp : 1 ≤ pr → 1 ≤ pr1) (h : TaskOk w pr total t) : TaskOk w1 pr1 total t := by
  unfold TaskOk at *
  split <;> simp_all <;> omega

theorem countInv_init (bar : ProgressBar) : CountInv (State.init bar) := by
  simp [CountInv, State.init, State.pastStore, MainOk]

theorem countInv_stepMain (env : Env) (p : Params) (s s1 : State)
    (h : stepMain env p s = some s1) (hi : CountInv s) : CountInv s1 := by
  unfold stepMain at h
  obtain ⟨hm, hl, hp, ht, hv, hb⟩ := hi
  unfold MainOk at hm
  split at h
  · have hv0 : ∀ n, ∀ v ∈ s.setValueCalls, 1 ≤ v ∧ v ≤ n := by
      intro n v hvm
      have h0 := hv v hvm
      simp only [‹s.main = MainPc.entry›] at hm
      rw [hm.2] at h0
      simp only [List.length_nil] at h0
      omega
    split at h
    · simp at h; subst h; simp_all [CountInv, MainOk, State.pastStore]
    · split at h
      · simp at h; subst h; simp_all [CountInv, MainOk, State.pastStore]
      · split at h
        · simp at h; subst h; simp_all [CountInv, MainOk, State.pastStore]
        · simp at h; subst h
          simp_all [CountInv, MainOk, State.pastStore]
  · split at h
    · split at h
      · simp at h; subst h; simp_all [CountInv, MainOk, State.pastStore]
      · simp at h
    · simp at h; subst h; simp_all [CountInv, MainOk, State.pastStore]
  · split at h
    · simp at h
    · split at h
      · simp at h; subst h; simp_all [CountInv, MainOk, State.pastStore]
      · simp at h; subst h
        simp_all [CountInv, MainOk, State.pastStore, Task.pastStore, Task.beforeStore]
        refine ⟨by omega, ?_⟩
        intro t htm
        rcases htm with htm | htm
        · exact ht t htm
        · subst htm; simp [TaskOk]
  · split at h <;> (simp at h; subst h; simp_all [CountInv, MainOk, State.pastStore])
  · split at h
    · simp at h; subst h; simp_all [CountInv, MainOk, State.pastStore]
    · split at h
      · simp at h; subst h; simp_all [CountInv, MainOk, State.pastStore]
      · simp at h
  · simp at h

theorem mainOk_congr (s s1 : State) (h1 : s1.main = s.main)
    (h2 : s1.tasks.length = s.tasks.length) (h3 : s1.files = s.files) (h : MainOk s) :
    MainOk s1 := by
  unfold MainOk at *
  rw [h1, h2, h3]
  exact h

set_option maxHeartbeats 3200000 in
theorem countInv_stepTask (env : Env) (p : Params) (s s1 : State) (i : Nat) (t : Task)
    (ht : s.tasks.get? i = some t) (h : stepTask env p s i t = some s1) (hi : CountInv s) :
    CountInv s1 := by
  obtain ⟨hm, hl, hp, hok, hv, hb⟩ := hi
  have htok := hok t (List.get?_mem ht)
  have hpos := countP_ge_of_getElem Task.pastStore s.tasks i t ht
  have hle : s.tasks.countP Task.pastStore ≤ s.tasks.length := List.countP_le_length _
  unfold stepTask at h
  unfold CountInv
  unfold State.pastStore at *
  obtain ⟨n, hn⟩ : ∃ n, s.tasks.countP Task.pastStore = n := ⟨_, rfl⟩
  split at h <;> (try split at h) <;> (try split at h) <;> simp at h <;> subst h <;>
    refine ⟨mainOk_congr s _ rfl (by simp) rfl hm, by simpa using hl, ?_,
      forall_mem_set ?_ (fun x hx => taskOk_mono ?_ ?_ (hok x hx)), ?_, by simpa using hb⟩ <;>
    simp_all [countP_set_eq Task.pastStore _ _ _ _ ht, Task.pastStore, Task.beforeStore,
      TaskOk] <;> try omega
  rintro v (hvm | rfl)
  · exact hv v hvm
  · exact htok

theorem countInv_stepWaiter (s s1 : State) (h : stepWaiter s = some s1) (hi : CountInv s) :
    CountInv s1 := by
  unfold stepWaiter at h
  obtain ⟨hm, hl, hp, hok, hv, hb⟩ := hi
  split at h <;> (try split at h) <;> simp at h <;> subst h <;>
    exact ⟨mainOk_congr s _ rfl rfl rfl hm, hl, hp, hok, hv, hb⟩

theorem countInv_step (env : Env) (p : Params) (s : State) (t : Thread) (s1 : State)
    (hi : CountInv s) (h : step env p s t = some s1) : CountInv s1 := by
  cases t with
  | main => exact countInv_stepMain env p s s1 h hi
  | waiter => exact countInv_stepWaiter s s1 h hi
  | task i =>
    simp only [step] at h
    split at h
    · simp at h
    · next t ht => exact countInv_stepTask env p s s1 i t ht h hi

/-- C8. Completed-count bound. In every reachable state, whatever the interleaving
of the loads and stores of `processed` (lost increments included), `processed` is at
most `len(files)`; every value already passed to `SetValue`, and every value a
goroutine has loaded and is about to pass, is at least 1 and at most `len(files)`,
which is `progressBar.Max` as soon as files were found. -/
theorem processed_bounded (env : Env) (p : Params) (bar : ProgressBar) (s : State)
    (h : Reachable env p bar s) :
    s.processed ≤ s.files.length ∧
      (∀ v ∈ s.setValueCalls, 1 ≤ v ∧ v ≤ s.files.length) ∧
      (∀ t ∈ s.tasks, ∀ v, t.pc = .callSetValue v → 1 ≤ v ∧ v ≤ s.files.length) ∧
      (s.files ≠ [] → s.bar.Max = s.files.length) := by
  obtain ⟨_, hl, hp, hok, hv, hb⟩ := reachable_invariant env p bar CountInv
    (countInv_init bar) (countInv_step env p) s h
  have hle : s.pastStore ≤ s.tasks.length := List.countP_le_length _
  refine ⟨by omega, hv, ?_, hb⟩
  intro t htm v hpc
  have := hok t htm
  simp only [TaskOk, hpc] at this
  exact this

/-! ## The error channel -/

theorem chanInv_init (bar : ProgressBar) : ChanInv (State.init bar) := by
  simp [ChanInv, State.init, State.live, MainPc.holdsSlot]

theorem chanInv_stepMain (env : Env) (p : Params) (s s1 : State)
    (h : stepMain env p s = some s1) (hi : ChanInv s) : ChanInv s1 := by
  unfold stepMain at h
  unfold ChanInv State.live at *
  obtain ⟨n, hn⟩ : ∃ n, s.tasks.countP Task.live = n := ⟨_, rfl⟩
  obtain ⟨h1, h2, h3, h4, h5⟩ := hi
  split at h <;> (try split at h) <;> (try split at h) <;> (try split at h) <;>
    simp at h <;> subst h <;>
    simp_all [Task.live, MainPc.pastLoop, MainPc.isReturned, MainPc.holdsSlot]

set_option maxHeartbeats 1600000 in
theorem chanInv_stepTask (env : Env) (p : Params) (s s1 : State) (i : Nat) (t : Task)
    (ht : s.tasks.get? i = some t) (h : stepTask env p s i t = some s1) (hi : ChanInv s) :
    ChanInv s1 := by
  have hpos := countP_ge_of_getElem Task.live s.tasks i t ht
  unfold stepTask at h
  unfold ChanInv State.live at *
  obtain ⟨n, hn⟩ : ∃ n, s.tasks.countP Task.live = n := ⟨_, rfl⟩
  obtain ⟨h1, h2, h3, h4, h5⟩ := hi
  split at h <;> (try split at h) <;> (try split at h) <;> simp at h <;> subst h <;>
    simp_all [countP_set_eq Task.live _ _ _ _ ht, Task.live] <;> try omega
  constructor
  · rcases h2 with h2 | ⟨h2a, h2b⟩
    · exact Or.inl h2
    · exact Or.inr ⟨h2a, by omega⟩
  · rcases h3 with h3 | h3
    · exact Or.inl h3
    · right
      by_cases hh : s.main.holdsSlot = true <;> simp [hh] at h3 ⊢ <;> omega

theorem chanInv_stepWaiter (s s1 : State) (h : stepWaiter s = some s1) (hi : ChanInv s) :
    ChanInv s1 := by
  unfold stepWaiter at h
  unfold ChanInv State.live at *
  obtain ⟨n, hn⟩ : ∃ n, s.tasks.countP Task.live = n := ⟨_, rfl⟩
  obtain ⟨h1, h2, h3, h4, h5⟩ := hi
  split at h <;> (try split at h) <;> simp at h <;> subst h <;> simp_all

theorem chanInv_step (env : Env) (p : Params) (s : State) (t : Thread) (s1 : State)
    (hi : ChanInv s) (h : step env p s t = some s1) : ChanInv s1 := by
  cases t with
  | main => exact chanInv_stepMain env p s s1 h hi
  | waiter => exact chanInv_stepWaiter s s1 h hi
  | task i =>
    simp only [step] at h
    split at h
    · simp at h
    · next t ht => exact chanInv_stepTask env p s s1 i t ht h hi

/-- A goroutine at its `select` is live, so the channel is still open. -/
theorem open_of_sendErr (s : State) (hi : ChanInv s) (i : Nat) (t : Task) (err : GoError)
    (ht : s.tasks.get? i = some t) (hpc : t.pc = .sendErr err) : s.errChanClosed = false := by
  obtain ⟨_, _, _, h4, h5⟩ := hi
  have hpos := countP_ge_of_getElem Task.live s.tasks i t ht
  simp only [Task.live, hpc, if_true] at hpos
  cases hc : s.errChanClosed with
  | false => rfl
  | true =>
    have := h4 (Or.inr (h5 hc))
    unfold State.live at this
    omega

theorem stepTask_keeps_full_chan (env : Env) (p : Params) (s s1 : State) (i : Nat) (t : Task)
    (e : GoError) (h : stepTask env p s i t = some s1) (he : s.errChan = [e]) :
    s1.errChan = [e] := by
  unfold stepTask at h
  split at h <;> (try split at h) <;> (try split at h) <;> simp at h <;> subst h <;>
    simp_all

theorem stepWaiter_keeps_chan (s s1 : State) (h : stepWaiter s = some s1) :
    s1.errChan = s.errChan := by
  unfold stepWaiter at h
  split at h <;> (try split at h) <;> simp at h <;> subst h <;> rfl

/-- What holds of the error channel in every reachable state: `errChan` holds at most
one error. A goroutine at its `select` (lines 193-196) always completes the step: it
stores its error when the slot is empty, and when the slot holds an error it leaves
that error in place and drops its own. No step of a conversion goroutine or of the
waiting goroutine changes a slot that holds an error; only the receive of line 215
empties it, and that receive returns the stored error. -/
theorem errChan_keeps_stored_error (env : Env) (p : Params) (bar : ProgressBar) (s : State)
    (h : Reachable env p bar s) :
    s.errChan.length ≤ 1 ∧
      (∀ i t err, s.tasks.get? i = some t → t.pc = .sendErr err →
        ∃ s1, step env p s (.task i) = some s1 ∧
          (s.errChan = [] → s1.errChan = [err]) ∧
          (∀ e, s.errChan = [e] → s1.errChan = [e])) ∧
      (∀ th s1 e, th ≠ .main → step env p s th = some s1 → s.errChan = [e] →
        s1.errChan = [e]) ∧
      (∀ e, s.main = .recvErr → s.errChan = [e] →
        ∃ s1, step env p s .main = some s1 ∧ s1.main = .returned (some e) ∧
          s1.errChan = []) := by
  have hi := reachable_invariant env p bar ChanInv (chanInv_init bar) (chanInv_step env p) s h
  refine ⟨hi.1, ?_, ?_, ?_⟩
  · intro i t err ht hpc
    have hopen := open_of_sendErr s hi i t err ht hpc
    simp only [step, ht, stepTask, hpc, hopen]
    by_cases hlen : s.errChan.length < 1
    · have hnil : s.errChan = [] := List.length_eq_zero.mp (by omega)
      simp [hnil]
    · have hne : s.errChan ≠ [] := by
        intro hnil
        simp [hnil] at hlen
      simp [hlen, hne]
  · intro th s1 e hth hstep he
    cases th with
    | main => exact absurd rfl hth
    | waiter =>
      rw [stepWaiter_keeps_chan s s1 hstep]
      exact he
    | task i =>
      simp only [step] at hstep
      split at hstep
      · simp at hstep
      · next t ht => exact stepTask_keeps_full_chan env p s s1 i t e hstep he
  · intro e hm he
    simp [step, stepMain, hm, he]

/-- The channel facts at the state in which the first of two failing goroutines has
stored its error and the second is at its `select`. -/
theorem errChan_keeps_stored_error_witness :
    Reachable (corruptEnv twoFiles) (sampleParams 2) freshBar
        (stateAfter (corruptEnv twoFiles) (sampleParams 2) (firstErrorStored ++ [.task 1])) ∧
      (stateAfter (corruptEnv twoFiles) (sampleParams 2)
        (firstErrorStored ++ [.task 1])).errChan.length ≤ 1 :=
  ⟨⟨firstErrorStored ++ [.task 1], by decide⟩,
    (errChan_keeps_stored_error (corruptEnv twoFiles) (sampleParams 2) freshBar _
      ⟨firstErrorStored ++ [.task 1], by decide⟩).1⟩

/-- It is not true of every schedule that once an error is stored in `errChan` no
later failing goroutine adds another: the schedules of the theorem
`second_error_stored_after_receive` refute it. -/
theorem later_error_stored_after_receive :
    ¬ ∀ (env : Env) (p : Params) (bar : ProgressBar) (sched1 sched2 : List Thread)
        (s1 s2 : State) (e : GoError),
        exec env p sched1 (State.init bar) = some s1 → s1.errChan = [e] →
        exec env p sched2 s1 = some s2 → ∀ e2 ∈ s2.errChan, e2 = e := by
  intro H
  have h := H (corruptEnv twoFiles) (sampleParams 2) freshBar firstErrorStored
    secondErrorAfterReceive
    (stateAfter (corruptEnv twoFiles) (sampleParams 2) firstErrorStored)
    (stateAfter (corruptEnv twoFiles) (sampleParams 2)
      (firstErrorStored ++ secondErrorAfterReceive))
    (.decodeFailed "in/a.jpg".toList (.os 1)) (by decide) (by decide) (by decide)
    (.decodeFailed "in/b.png".toList (.os 1)) (by decide)
  exact absurd h (by decide)

/-- C7, on a concrete run. Two corrupt files, two slots. The first
goroutine fails and stores its error; the function, which does not wait for the
goroutines, receives that error at line 215 and returns it; the second goroutine then
fails, finds the slot empty, and its `select` stores the second error instead of
dropping it. -/
theorem second_error_stored_after_receive :
    Reachable (corruptEnv twoFiles) (sampleParams 2) freshBar
        (stateAfter (corruptEnv twoFiles) (sampleParams 2) firstErrorStored) ∧
      Reachable (corruptEnv twoFiles) (sampleParams 2) freshBar
        (stateAfter (corruptEnv twoFiles) (sampleParams 2)
          (firstErrorStored ++ secondErrorAfterReceive)) ∧
      (stateAfter (corruptEnv twoFiles) (sampleParams 2) firstErrorStored).errChan =
        [.decodeFailed "in/a.jpg".toList (.os 1)] ∧
      (stateAfter (corruptEnv twoFiles) (sampleParams 2)
        (firstErrorStored ++ secondErrorAfterReceive)).main =
        .returned (some (.decodeFailed "in/a.jpg".toList (.os 1))) ∧
      (stateAfter (corruptEnv twoFiles) (sampleParams 2)
        (firstErrorStored ++ secondErrorAfterReceive)).tasks.map Task.pc =
        [.release, .release] ∧
      (stateAfter (corruptEnv twoFiles) (sampleParams 2)
        (firstErrorStored ++ secondErrorAfterReceive)).errChan =
        [.decodeFailed "in/b.png".toList (.os 1)] :=
  ⟨⟨firstErrorStored, by decide⟩, ⟨firstErrorStored ++ secondErrorAfterReceive, by decide⟩,
    by decide⟩

/-- C3, on a concrete run. One corrupt file, one slot: the function
returns `nil` while the goroutine it started is still converting; the goroutine then
fails and stores its error, which nobody receives. -/
theorem returns_nil_before_job_fails :
    Reachable (corruptEnv oneFile) (sampleParams 1) freshBar
        (stateAfter (corruptEnv oneFile) (sampleParams 1) returnBeforeTask) ∧
      Reachable (corruptEnv oneFile) (sampleParams 1) freshBar
        (stateAfter (corruptEnv oneFile) (sampleParams 1)
          (returnBeforeTask ++ failingTaskRun 0)) ∧
      (stateAfter (corruptEnv oneFile) (sampleParams 1) returnBeforeTask).main = .returned none ∧
      (stateAfter (corruptEnv oneFile) (sampleParams 1) returnBeforeTask).tasks.map Task.pc =
        [.converting] ∧
      (stateAfter (corruptEnv oneFile) (sampleParams 1)
        (returnBeforeTask ++ failingTaskRun 0)).main = .returned none ∧
      (stateAfter (corruptEnv oneFile) (sampleParams 1)
        (returnBeforeTask ++ failingTaskRun 0)).tasks.map Task.pc = [.finished] ∧
      (stateAfter (corruptEnv oneFile) (sampleParams 1)
        (returnBeforeTask ++ failingTaskRun 0)).errChan =
        [.decodeFailed "in/a.jpg".toList (.os 1)] :=
  ⟨⟨returnBeforeTask, by decide⟩, ⟨returnBeforeTask ++ failingTaskRun 0, by decide⟩,
    by decide⟩

/-- C4, on a concrete run. Two good files, two slots: both goroutines
load `processed = 0` before either stores, so after both have ended `processed` is 1
and not 2, and `SetValue` was called with 1 twice and never with 2. -/
theorem lost_update_duplicates_progress :
    Reachable (quietEnv twoFiles) (sampleParams 2) freshBar
        (stateAfter (quietEnv twoFiles) (sampleParams 2) lostUpdate) ∧
      (stateAfter (quietEnv twoFiles) (sampleParams 2) lostUpdate).files.length = 2 ∧
      (stateAfter (quietEnv twoFiles) (sampleParams 2) lostUpdate).tasks.map Task.pc =
        [.finished, .finished] ∧
      (stateAfter (quietEnv twoFiles) (sampleParams 2) lostUpdate).errChan = [] ∧
      (stateAfter (quietEnv twoFiles) (sampleParams 2) lostUpdate).processed = 1 ∧
      (stateAfter (quietEnv twoFiles) (sampleParams 2) lostUpdate).setValueCalls = [1, 1] :=
  ⟨⟨lostUpdate, by decide⟩, by decide⟩

/-- C9, on a concrete run. Two files, the second in a subdirectory that
cannot be made: the function returns the error of line 184 after taking the slot of
line 172; once the only started goroutine has ended, `sem` still holds one token and
the wait-group counter is still 1. -/
theorem slot_kept_after_subdir_failure :
    Reachable (noSubDirEnv mixedTree) (sampleParams 2) freshBar
        (stateAfter (noSubDirEnv mixedTree) (sampleParams 2) subDirFailure) ∧
      (stateAfter (noSubDirEnv mixedTree) (sampleParams 2) subDirFailure).main =
        .returned (some (.subDirFailed (.os 13))) ∧
      (stateAfter (noSubDirEnv mixedTree) (sampleParams 2) subDirFailure).tasks.map Task.pc =
        [.finished] ∧
      (stateAfter (noSubDirEnv mixedTree) (sampleParams 2) subDirFailure).sem = 1 ∧
      (stateAfter (noSubDirEnv mixedTree) (sampleParams 2) subDirFailure).wg = 1 ∧
      (∀ t, step (noSubDirEnv mixedTree) (sampleParams 2)
        (stateAfter (noSubDirEnv mixedTree) (sampleParams 2) subDirFailure) t = none) := by
  refine ⟨⟨subDirFailure, by decide⟩, by decide, by decide, by decide, by decide, ?_⟩
  intro t
  cases t with
  | main => decide
  | waiter => decide
  | task i =>
    cases i with
    | zero => decide
    | succ j =>
      have hlen : (stateAfter (noSubDirEnv mixedTree) (sampleParams 2)
          subDirFailure).tasks.length = 1 := by decide
      have hnone : (stateAfter (noSubDirEnv mixedTree) (sampleParams 2)
          subDirFailure).tasks.get? (j + 1) = none :=
        List.get?_eq_none.mpr (by rw [hlen]; omega)
      simp only [step, hnone]

/-- C2, on a concrete run. The file `in/sub/C.GIF` is discovered, and its
output path keeps the original extension: `out/sub/C.GIF.webp`, not `out/sub/C.webp`;
the lower-case `in/sub/c.gif` is mapped to `out/sub/c.webp`. -/
theorem upper_case_extension_kept :
    "in/sub/C.GIF".toList ∈ (Walk (walkFn id) "in".toList sampleTree []).1 ∧
      outputPathOf (quietEnv sampleTree) (sampleParams 2) "in/sub/C.GIF".toList =
        .ok "out/sub/C.GIF.webp".toList ∧
      mapPath (quietEnv sampleTree) (sampleParams 2) "in/sub/C.GIF".toList =
        .ok "out/sub/C.GIF.webp".toList ∧
      mapPath (quietEnv sampleTree) (sampleParams 2) "in/sub/c.gif".toList =
        .ok "out/sub/c.webp".toList := by
  decide

/-- A complete run: two good files, one slot, every goroutine run to its end before
the next dispatch, then the waiting goroutine. The function returns `nil`, the counter
is 2, `SetValue` got 1 and 2, all slots are free and the error channel is closed. -/
theorem sequential_run_completes :
    Reachable (quietEnv twoFiles) (sampleParams 1) freshBar
        (stateAfter (quietEnv twoFiles) (sampleParams 1) sequentialRun) ∧
      (stateAfter (quietEnv twoFiles) (sampleParams 1) sequentialRun).main = .returned none ∧
      (stateAfter (quietEnv twoFiles) (sampleParams 1) sequentialRun).tasks.map Task.pc =
        [.finished, .finished] ∧
      (stateAfter (quietEnv twoFiles) (sampleParams 1) sequentialRun).processed = 2 ∧
      (stateAfter (quietEnv twoFiles) (sampleParams 1) sequentialRun).setValueCalls = [1, 2] ∧
      (stateAfter (quietEnv twoFiles) (sampleParams 1) sequentialRun).setTextCalls =
        [(1, 2), (2, 2)] ∧
      (stateAfter (quietEnv twoFiles) (sampleParams 1) sequentialRun).sem = 0 ∧
      (stateAfter (quietEnv twoFiles) (sampleParams 1) sequentialRun).wg = 0 ∧
      (stateAfter (quietEnv twoFiles) (sampleParams 1) sequentialRun).waiter = .finished ∧
      (stateAfter (quietEnv twoFiles) (sampleParams 1) sequentialRun).errChan = [] ∧
      (stateAfter (quietEnv twoFiles) (sampleParams 1) sequentialRun).errChanClosed = true ∧
      (stateAfter (quietEnv twoFiles) (sampleParams 1) sequentialRun).bar =
        { Max := 2, Value := 2 } :=
  ⟨⟨sequentialRun, by decide⟩, by decide⟩

/-! ## Failures before the dispatch loop -/

/-- The state in which the function has returned `e` straight from the call. -/
theorem step_returned_init (env : Env) (p : Params) (bar : ProgressBar) (r : Option GoError)
    (t : Thread) : step env p (State.returnedAtOnce bar r) t = none := by
  cases t <;> simp [step, stepMain, stepWaiter, State.init, State.returnedAtOnce]

theorem exec_returned_init (env : Env) (p : Params) (bar : ProgressBar) (r : Option GoError)
    (sched : List Thread) (s : State)
    (h : exec env p sched (State.returnedAtOnce bar r) = some s) :
    s = (State.returnedAtOnce bar r) := by
  cases sched with
  | nil => simpa [exec] using h.symm
  | cons t rest => simp [exec, step_returned_init] at h

theorem reachable_of_first_step_returns (env : Env) (p : Params) (bar : ProgressBar)
    (r : Option GoError)
    (hmain : step env p (State.init bar) .main =
      some (State.returnedAtOnce bar r))
    (s : State) (h : Reachable env p bar s) :
    s = State.init bar ∨ s = (State.returnedAtOnce bar r) := by
  obtain ⟨sched, hs⟩ := h
  unfold convertFolderToWebP at hs
  cases sched with
  | nil =>
    left
    simpa [exec] using hs.symm
  | cons t rest =>
    right
    cases t with
    | main =>
      simp only [exec, hmain] at hs
      exact exec_returned_init env p bar r rest s hs
    | waiter => simp [exec, step, stepWaiter, State.init] at hs
    | task i => simp [exec, step, State.init] at hs

theorem first_step_of_batch_failure (env : Env) (p : Params) (bar : ProgressBar)
    (hfail : env.mkdirAll p.outputDir ≠ none ∨
      (Walk (walkFn env.caseTable) p.inputDir env.inputTree []).2 ≠ none ∨
      (Walk (walkFn env.caseTable) p.inputDir env.inputTree []).1 = []) :
    ∃ e, step env p (State.init bar) .main =
      some (State.returnedAtOnce bar (some e)) := by
  simp only [step, stepMain, State.init, State.returnedAtOnce]
  rcases hmk : env.mkdirAll p.outputDir with _ | err
  · rcases hw : Walk (walkFn env.caseTable) p.inputDir env.inputTree [] with ⟨files, _ | werr⟩
    · have hnil : files = [] := by
        rcases hfail with h | h | h
        · exact absurd hmk h
        · simp [hw] at h
        · simpa [hw] using h
      exact ⟨.noSupportedImages, by simp [hnil]⟩
    · exact ⟨werr, by simp⟩
  · exact ⟨.outputDirFailed (.os err), by simp⟩

/-- The error of the first step, case by case, in the order of lines 134-159. -/
theorem first_step_error (env : Env) (p : Params) (bar : ProgressBar) :
    (∀ err, env.mkdirAll p.outputDir = some err →
        step env p (State.init bar) .main =
          some (State.returnedAtOnce bar (some (.outputDirFailed (.os err))))) ∧
      (∀ werr, env.mkdirAll p.outputDir = none →
        (Walk (walkFn env.caseTable) p.inputDir env.inputTree []).2 = some werr →
        step env p (State.init bar) .main = some (State.returnedAtOnce bar (some werr))) ∧
      (env.mkdirAll p.outputDir = none →
        (Walk (walkFn env.caseTable) p.inputDir env.inputTree []).2 = none →
        (Walk (walkFn env.caseTable) p.inputDir env.inputTree []).1 = [] →
        step env p (State.init bar) .main =
          some (State.returnedAtOnce bar (some .noSupportedImages))) := by
  refine ⟨?_, ?_, ?_⟩
  · intro err hmk
    simp [step, stepMain, State.init, State.returnedAtOnce, hmk]
  · intro werr hmk hw
    rcases hwalk : Walk (walkFn env.caseTable) p.inputDir env.inputTree [] with ⟨files, r⟩
    rw [hwalk] at hw
    simp only at hw
    subst hw
    simp [step, stepMain, State.init, State.returnedAtOnce, hmk, hwalk]
  · intro hmk hw hnil
    rcases hwalk : Walk (walkFn env.caseTable) p.inputDir env.inputTree [] with ⟨files, r⟩
    rw [hwalk] at hw hnil
    simp only at hw hnil
    subst hw
    subst hnil
    simp [step, stepMain, State.init, State.returnedAtOnce, hmk, hwalk]

/-- The walk of an empty directory that can be read succeeds and collects nothing; the
walk of a directory whose names cannot be read fails with the error of the read. -/
theorem Walk_empty_or_locked (tbl : Char → Char) (root name : GoString) (errno : Nat) :
    Walk (walkFn tbl) root (.dir name []) [] = ([], none) ∧
      Walk (walkFn tbl) root (.unreadableDir name errno) [] = ([], some (.os errno)) := by
  constructor <;> simp [Walk, walk, walkNames, walkFn]

/-- C6 (amended). Failures of the batch abort before dispatch. When the output root
cannot be made, or the walk fails, or the walk finds no eligible file, the first
step of the function returns a non-nil error, and the only reachable states are the
initial one and that returned one: no slot taken, wait group untouched, no goroutine
started, the progress bar as the caller left it. The error is the output-directory
error of line 135 when the output root cannot be made; otherwise it is the error of
the walk when the walk fails; otherwise it is the no-supported-images error. So an
empty input directory yields the no-supported-images error whenever the output root
could be made and the directory could be read; an input directory whose names cannot
be read yields the error of that read, when the output root could be made. -/
theorem batch_failure_aborts_before_dispatch (env : Env) (p : Params) (bar : ProgressBar) :
    ((env.mkdirAll p.outputDir ≠ none ∨
        (Walk (walkFn env.caseTable) p.inputDir env.inputTree []).2 ≠ none ∨
        (Walk (walkFn env.caseTable) p.inputDir env.inputTree []).1 = []) →
      ∃ e, step env p (State.init bar) .main =
          some (State.returnedAtOnce bar (some e)) ∧
        ∀ s, Reachable env p bar s →
          (s = State.init bar ∨ s = (State.returnedAtOnce bar (some e))) ∧
          s.sem = 0 ∧ s.wg = 0 ∧ s.tasks = [] ∧ s.waiter = .notStarted ∧ s.bar = bar ∧
          s.setValueCalls = [] ∧ s.setTextCalls = []) ∧
      (∀ err, env.mkdirAll p.outputDir = some err →
        step env p (State.init bar) .main =
          some (State.returnedAtOnce bar (some (.outputDirFailed (.os err))))) ∧
      (∀ werr, env.mkdirAll p.outputDir = none →
        (Walk (walkFn env.caseTable) p.inputDir env.inputTree []).2 = some werr →
        step env p (State.init bar) .main = some (State.returnedAtOnce bar (some werr))) ∧
      (env.mkdirAll p.outputDir = none →
        (Walk (walkFn env.caseTable) p.inputDir env.inputTree []).2 = none →
        (Walk (walkFn env.caseTable) p.inputDir env.inputTree []).1 = [] →
        step env p (State.init bar) .main =
          some (State.returnedAtOnce bar (some .noSupportedImages))) ∧
      (∀ name, env.inputTree = .dir name [] → env.mkdirAll p.outputDir = none →
        step env p (State.init bar) .main =
          some (State.returnedAtOnce bar (some .noSupportedImages))) ∧
      (∀ name errno, env.inputTree = .unreadableDir name errno →
        env.mkdirAll p.outputDir = none →
        step env p (State.init bar) .main =
          some (State.returnedAtOnce bar (some (.os errno)))) := by
  obtain ⟨hmkdir, hwalk, hnone⟩ := first_step_error env p bar
  refine ⟨?_, hmkdir, hwalk, hnone, ?_, ?_⟩
  · intro hfail
    obtain ⟨e, he⟩ := first_step_of_batch_failure env p bar hfail
    refine ⟨e, he, ?_⟩
    intro s hs
    have hcase := reachable_of_first_step_returns env p bar (some e) he s hs
    refine ⟨hcase, ?_⟩
    rcases hcase with h | h <;> subst h <;> simp [State.init, State.returnedAtOnce]
  · intro name htree hmk
    have hw := (Walk_empty_or_locked env.caseTable p.inputDir name 0).1
    rw [← htree] at hw
    exact hnone hmk (by rw [hw]) (by rw [hw])
  · intro name errno htree hmk
    have hw := (Walk_empty_or_locked env.caseTable p.inputDir name errno).2
    rw [← htree] at hw
    exact hwalk (.os errno) hmk (by rw [hw])

/-- Witness for C6. An empty input directory that can be read, with an output root
that can be made: the walk finds nothing, the function returns the
no-supported-images error at once and nothing else is reachable. The same directory
with an output root that cannot be made: the error of line 135. A directory whose
names cannot be read: the error of the read. -/
theorem batch_failure_aborts_before_dispatch_witness :
    ((quietEnv emptyDir).inputTree = .dir "in".toList [] ∧
        (quietEnv emptyDir).mkdirAll (sampleParams 2).outputDir = none ∧
        step (quietEnv emptyDir) (sampleParams 2) (State.init freshBar) .main =
          some (State.returnedAtOnce freshBar (some .noSupportedImages))) ∧
      ((Walk (walkFn (quietEnv emptyDir).caseTable) (sampleParams 2).inputDir
          (quietEnv emptyDir).inputTree []).1 = [] ∧
        ∃ e, step (quietEnv emptyDir) (sampleParams 2) (State.init freshBar) .main =
            some (State.returnedAtOnce freshBar (some e)) ∧
          ∀ s, Reachable (quietEnv emptyDir) (sampleParams 2) freshBar s →
            (s = State.init freshBar ∨ s = (State.returnedAtOnce freshBar (some e))) ∧
            s.sem = 0 ∧ s.wg = 0 ∧ s.tasks = [] ∧ s.waiter = .notStarted ∧
            s.bar = freshBar ∧ s.setValueCalls = [] ∧ s.setTextCalls = []) ∧
      ((noOutputEnv emptyDir).mkdirAll (sampleParams 2).outputDir = some 13 ∧
        step (noOutputEnv emptyDir) (sampleParams 2) (State.init freshBar) .main =
          some (State.returnedAtOnce freshBar (some (.outputDirFailed (.os 13))))) ∧
      ((quietEnv lockedDir).inputTree = .unreadableDir "in".toList 13 ∧
        (quietEnv lockedDir).mkdirAll (sampleParams 2).outputDir = none ∧
        step (quietEnv lockedDir) (sampleParams 2) (State.init freshBar) .main =
          some (State.returnedAtOnce freshBar (some (.os 13)))) :=
  ⟨⟨rfl, rfl,
      (batch_failure_aborts_before_dispatch (quietEnv emptyDir) (sampleParams 2)
        freshBar).2.2.2.2.1 "in".toList rfl rfl⟩,
    ⟨by decide,
      (batch_failure_aborts_before_dispatch (quietEnv emptyDir) (sampleParams 2) freshBar).1
        (Or.inr (Or.inr (by decide)))⟩,
    ⟨by decide,
      (batch_failure_aborts_before_dispatch (noOutputEnv emptyDir) (sampleParams 2)
        freshBar).2.1 13 (by decide)⟩,
    ⟨rfl, rfl,
      (batch_failure_aborts_before_dispatch (quietEnv lockedDir) (sampleParams 2)
        freshBar).2.2.2.2.2 "in".toList 13 rfl rfl⟩⟩

/-- C6 (counterexample). An empty input directory does not always yield the
no-supported-images error. When the output root cannot be made, the function returns
the error of line 135 and never looks at the input directory. When the names of the
input directory cannot be read (the directory may well be empty), the output root is
made and the function returns the error of the read from line 154. -/
theorem empty_dir_with_unwritable_output :
    ((noOutputEnv emptyDir).inputTree = .dir "in".toList [] ∧
        exec (noOutputEnv emptyDir) (sampleParams 2) [.main] (State.init freshBar) =
          some (State.returnedAtOnce freshBar (some (.outputDirFailed (.os 13)))) ∧
        GoError.outputDirFailed (.os 13) ≠ GoError.noSupportedImages) ∧
      ((quietEnv lockedDir).inputTree = .unreadableDir "in".toList 13 ∧
        (quietEnv lockedDir).mkdirAll (sampleParams 2).outputDir = none ∧
        exec (quietEnv lockedDir) (sampleParams 2) [.main] (State.init freshBar) =
          some (State.returnedAtOnce freshBar (some (.os 13))) ∧
        GoError.os 13 ≠ GoError.noSupportedImages) :=
  ⟨⟨rfl, by decide, by decide⟩, ⟨rfl, rfl, by decide, by decide⟩⟩

/-! ## Format dispatch -/

theorem supported_of_mem_Walk (tbl : Char → Char) (root : GoString) (tree : FsNode)
    (path : GoString) (h : path ∈ (Walk (walkFn tbl) root tree []).1) :
    supportedExt (ToLower tbl (Ext path)) = true := by
  rw [Walk_sim, mem_eligiblePaths] at h
  obtain ⟨v, _, hv, _, hs⟩ := h
  rw [← hv]
  exact hs

/-- C10. Format dispatch in `convertToWebP`. For an input that can be opened, the
function returns the unsupported-format error iff the lower-cased extension is none of
`.jpg`, `.jpeg`, `.png`, `.gif`, and then it has only opened and closed the input: no
decoding, no output file. So a path collected by the discovery walk never gets that
error. The lower-cased extensions `.jpg` and `.jpeg` decode with the JPEG decoder,
`.png` with the PNG decoder, `.gif` with the GIF decoder, and with no other. -/
theorem convertToWebP_format_dispatch (env : Env) (inputPath outputPath : GoString)
    (quality : Int) (lossless : Bool) (hopen : env.openFile inputPath = none) :
    ((∃ e, (convertToWebP env inputPath outputPath quality lossless).1 =
          some (.unsupportedFormat e)) ↔
        supportedExt (ToLower env.caseTable (Ext inputPath)) = false) ∧
      (supportedExt (ToLower env.caseTable (Ext inputPath)) = false →
        convertToWebP env inputPath outputPath quality lossless =
          (some (.unsupportedFormat (ToLower env.caseTable (Ext inputPath))),
            [.opened inputPath, .closed inputPath])) ∧
      (∀ root tree, inputPath ∈ (Walk (walkFn env.caseTable) root tree []).1 →
        ∀ e, (convertToWebP env inputPath outputPath quality lossless).1 ≠
          some (.unsupportedFormat e)) ∧
      ((ToLower env.caseTable (Ext inputPath) = ".jpg".toList ∨
          ToLower env.caseTable (Ext inputPath) = ".jpeg".toList) →
        ∀ d path, Effect.decoded d path ∈
          (convertToWebP env inputPath outputPath quality lossless).2 ↔
            (d = .jpeg ∧ path = inputPath)) ∧
      (ToLower env.caseTable (Ext inputPath) = ".png".toList →
        ∀ d path, Effect.decoded d path ∈
          (convertToWebP env inputPath outputPath quality lossless).2 ↔
            (d = .png ∧ path = inputPath)) ∧
      (ToLower env.caseTable (Ext inputPath) = ".gif".toList →
        ∀ d path, Effect.decoded d path ∈
          (convertToWebP env inputPath outputPath quality lossless).2 ↔
            (d = .gif ∧ path = inputPath)) := by
  have hsome := selectDecoder_isSome (ToLower env.caseTable (Ext inputPath))
  have hunsup : supportedExt (ToLower env.caseTable (Ext inputPath)) = true →
      ∀ e, (convertToWebP env inputPath outputPath quality lossless).1 ≠
        some (.unsupportedFormat e) := by
    intro hs
    rcases convertToWebP_cases env inputPath outputPath quality lossless hopen with
      ⟨hnone, _⟩ | ⟨d, _, hne, _⟩
    · rw [hnone] at hsome
      rw [hs] at hsome
      simp at hsome
    · exact hne
  have hdec : ∀ d0, selectDecoder (ToLower env.caseTable (Ext inputPath)) = some d0 →
      ∀ d path, Effect.decoded d path ∈
        (convertToWebP env inputPath outputPath quality lossless).2 ↔
          (d = d0 ∧ path = inputPath) := by
    intro d0 hd0
    rcases convertToWebP_cases env inputPath outputPath quality lossless hopen with
      ⟨hnone, _⟩ | ⟨d, hd, _, hmem⟩
    · rw [hnone] at hd0
      simp at hd0
    · rw [hd] at hd0
      cases hd0
      exact hmem
  refine ⟨?_, ?_, ?_, ?_, ?_, ?_⟩
  · constructor
    · rintro ⟨e, he⟩
      cases hs : supportedExt (ToLower env.caseTable (Ext inputPath)) with
      | false => rfl
      | true => exact absurd he (hunsup hs e)
    · intro hs
      rcases convertToWebP_cases env inputPath outputPath quality lossless hopen with
        ⟨_, heq⟩ | ⟨d, hd, _, _⟩
      · exact ⟨_, by rw [heq]⟩
      · rw [hd, hs] at hsome
        simp at hsome
  · intro hs
    rcases convertToWebP_cases env inputPath outputPath quality lossless hopen with
      ⟨_, heq⟩ | ⟨d, hd, _, _⟩
    · exact heq
    · rw [hd, hs] at hsome
      simp at hsome
  · intro root tree hmem
    exact hunsup (supported_of_mem_Walk env.caseTable root tree inputPath hmem)
  · intro hext
    exact hdec .jpeg ((selectDecoder_jpeg _).mpr hext)
  · intro hext
    exact hdec .png ((selectDecoder_png _).mpr hext)
  · intro hext
    exact hdec .gif ((selectDecoder_gif _).mpr hext)

/-- Witness for C10: the file `in/e.JPG`, extension in upper case, in an environment
where every operation succeeds; it is decoded as JPEG. -/
theorem convertToWebP_format_dispatch_witness :
    (quietEnv fiveFiles).openFile "in/e.JPG".toList = none ∧
      ∀ d path, Effect.decoded d path ∈
        (convertToWebP (quietEnv fiveFiles) "in/e.JPG".toList "out/e.JPG.webp".toList 80
          false).2 ↔ (d = .jpeg ∧ path = "in/e.JPG".toList) :=
  ⟨rfl,
    (convertToWebP_format_dispatch (quietEnv fiveFiles) "in/e.JPG".toList
      "out/e.JPG.webp".toList 80 false rfl).2.2.2.1 (Or.inl (by decide))⟩

/-- Witness for C8: the state after a lost update (two files, `processed = 1`). -/
theorem processed_bounded_witness :
    Reachable (quietEnv twoFiles) (sampleParams 2) freshBar
        (stateAfter (quietEnv twoFiles) (sampleParams 2) lostUpdate) ∧
      (stateAfter (quietEnv twoFiles) (sampleParams 2) lostUpdate).processed ≤
        (stateAfter (quietEnv twoFiles) (sampleParams 2) lostUpdate).files.length ∧
      ∀ v ∈ (stateAfter (quietEnv twoFiles) (sampleParams 2) lostUpdate).setValueCalls,
        1 ≤ v ∧ v ≤ (stateAfter (quietEnv twoFiles) (sampleParams 2) lostUpdate).files.length :=
  ⟨⟨lostUpdate, by decide⟩,
    (processed_bounded (quietEnv twoFiles) (sampleParams 2) freshBar _
      ⟨lostUpdate, by decide⟩).1,
    (processed_bounded (quietEnv twoFiles) (sampleParams 2) freshBar _
      ⟨lostUpdate, by decide⟩).2.1⟩

end JpgToWebp
